import Mathlib

/-!
Verification development for the aioia-core TypeScript data-access layer:
the transport class (client/BaseApiService.ts), the generic repository
(repositories/BaseCrudRepository.ts), and the error taxonomy
(errors/exceptions.ts).  Definitions are shallow embeddings translated
from the TypeScript source; theorems settle the specification claims.
-/

/-! ## JSON values

JavaScript values that flow through the repository (decoded response
bodies, filter values, serialized request bodies) are modelled by a JSON
tree.  Objects keep their fields in insertion order, as JavaScript
objects do.  Numbers are modelled as integers, which covers every number
the repository itself constructs or inspects.  The three types are a
mutual inductive family so that every function over them can be written
by mutual structural recursion (and therefore evaluates inside the
kernel). -/

mutual

inductive Json where
  | null
  | bool (b : Bool)
  | num (n : Int)
  | str (s : String)
  | arr (elems : JsonList)
  | obj (fields : JsonFields)
deriving DecidableEq

inductive JsonList where
  | nil
  | cons (hd : Json) (tl : JsonList)
deriving DecidableEq

inductive JsonFields where
  | nil
  | cons (key : String) (val : Json) (tl : JsonFields)
deriving DecidableEq

end

def JsonList.ofList : List Json → JsonList
  | [] => .nil
  | x :: tl => .cons x (JsonList.ofList tl)

def JsonList.toList : JsonList → List Json
  | .nil => []
  | .cons x tl => x :: JsonList.toList tl

/-- First binding of a key in an object, as JavaScript property access
reads it (object literals in this code base never repeat a key). -/
def jsonLookup (key : String) : JsonFields → Option Json
  | .nil => none
  | .cons k v tl => if k == key then some v else jsonLookup key tl

/-! ## JSON serialization, modelling JSON.stringify

Compact output: no whitespace, fields and elements in order, strings
quoted with `"` and `\` escaped.  (Control characters, which
JSON.stringify would escape as \uXXXX, are not modelled; no string the
repository serializes contains one.) -/

def digitChar : Nat → Char
  | 0 => '0' | 1 => '1' | 2 => '2' | 3 => '3' | 4 => '4'
  | 5 => '5' | 6 => '6' | 7 => '7' | 8 => '8' | _ => '9'

def natCharsAux : Nat → Nat → List Char
  | 0, _ => []
  | fuel + 1, n =>
    if n < 10 then [digitChar n]
    else natCharsAux fuel (n / 10) ++ [digitChar (n % 10)]

/-- Decimal digits of a natural number, most significant first. -/
def natChars (n : Nat) : List Char := natCharsAux (n + 1) n

/-- Decimal rendering of an integer, as JavaScript Number#toString. -/
def intChars (i : Int) : List Char :=
  if i < 0 then '-' :: natChars i.natAbs else natChars i.natAbs

def natToString (n : Nat) : String := String.mk (natChars n)

def escapeChar (c : Char) : List Char :=
  if c == '"' then [ '\\', '"' ]
  else if c == '\\' then [ '\\', '\\' ]
  else [c]

def escapeChars : List Char → List Char
  | [] => []
  | c :: tl => escapeChar c ++ escapeChars tl

mutual

def strJson : Json → List Char
  | .null => [ 'n', 'u', 'l', 'l' ]
  | .bool b => if b then [ 't', 'r', 'u', 'e' ] else [ 'f', 'a', 'l', 's', 'e' ]
  | .num n => intChars n
  | .str s => '"' :: escapeChars s.data ++ [ '"' ]
  | .arr es => '[' :: strList es ++ [ ']' ]
  | .obj fs => '{' :: strFields fs ++ [ '}' ]

def strList : JsonList → List Char
  | .nil => []
  | .cons x .nil => strJson x
  | .cons x (.cons y tl) => strJson x ++ ',' :: strList (.cons y tl)

def strFields : JsonFields → List Char
  | .nil => []
  | .cons k v .nil => '"' :: escapeChars k.data ++ '"' :: ':' :: strJson v
  | .cons k v (.cons k2 v2 tl) =>
    '"' :: escapeChars k.data ++ '"' :: ':' :: strJson v ++
      ',' :: strFields (.cons k2 v2 tl)

end

def jsonStringify (j : Json) : String := String.mk (strJson j)

/-! ## JSON parsing, modelling JSON.parse on the canonical output

A fuel-indexed recursive-descent parser over the compact grammar the
serializer above emits (it is slightly lenient: whitespace between
tokens and trailing separators are not modelled, which no claim
depends on).  Fuel makes every recursion structural, so the parser
evaluates inside the kernel. -/

def unescapeChar (c : Char) : Option Char :=
  if c == '"' then some '"'
  else if c == '\\' then some '\\'
  else none

def parseStringBody : List Char → Option (List Char × List Char)
  | [] => none
  | c :: rest =>
    if c == '"' then some ([], rest)
    else if c == '\\' then
      match rest with
      | [] => none
      | e :: rest2 =>
        (unescapeChar e).bind fun u =>
          (parseStringBody rest2).map fun sr => (u :: sr.1, sr.2)
    else (parseStringBody rest).map fun sr => (c :: sr.1, sr.2)

def takeDigits : List Char → List Char × List Char
  | [] => ([], [])
  | c :: rest =>
    if c.isDigit then
      let r := takeDigits rest
      (c :: r.1, r.2)
    else ([], c :: rest)

def digitVal (c : Char) : Nat := c.toNat - 48

def valOfDigits (ds : List Char) : Nat :=
  ds.foldl (fun acc c => 10 * acc + digitVal c) 0

def parseNatNum (cs : List Char) : Option (Nat × List Char) :=
  match takeDigits cs with
  | ([], _) => none
  | (ds, rest) => some (valOfDigits ds, rest)

def parseItems (p : List Char → Option (Json × List Char)) :
    Nat → List Char → Option (JsonList × List Char)
  | 0, _ => none
  | fuel + 1, cs =>
    match cs with
    | [] => none
    | c :: rest =>
      if c == ']' then some (.nil, rest)
      else
        (p (c :: rest)).bind fun jr =>
          match jr.2 with
          | [] => none
          | c2 :: r2 =>
            if c2 == ',' then
              (parseItems p fuel r2).map fun er => (.cons jr.1 er.1, er.2)
            else if c2 == ']' then some (.cons jr.1 .nil, r2)
            else none

def parseFieldItems (p : List Char → Option (Json × List Char)) :
    Nat → List Char → Option (JsonFields × List Char)
  | 0, _ => none
  | fuel + 1, cs =>
    match cs with
    | [] => none
    | c :: rest =>
      if c == '}' then some (.nil, rest)
      else if c == '"' then
        (parseStringBody rest).bind fun kr =>
          match kr.2 with
          | ':' :: r2 =>
            (p r2).bind fun vr =>
              match vr.2 with
              | [] => none
              | c2 :: r3 =>
                if c2 == ',' then
                  (parseFieldItems p fuel r3).map fun fr =>
                    (.cons (String.mk kr.1) vr.1 fr.1, fr.2)
                else if c2 == '}' then
                  some (.cons (String.mk kr.1) vr.1 .nil, r3)
                else none
          | _ => none
      else none

def parseVal : Nat → List Char → Option (Json × List Char)
  | 0, _ => none
  | fuel + 1, cs =>
    match cs with
    | [] => none
    | c :: rest =>
      if c.isDigit then
        (parseNatNum (c :: rest)).map fun nr => (.num (nr.1 : Int), nr.2)
      else if c == '-' then
        (parseNatNum rest).map fun nr => (.num (-(nr.1 : Int)), nr.2)
      else if c == '"' then
        (parseStringBody rest).map fun sr => (.str (String.mk sr.1), sr.2)
      else if c == '[' then
        (parseItems (parseVal fuel) fuel rest).map fun er => (.arr er.1, er.2)
      else if c == '{' then
        (parseFieldItems (parseVal fuel) fuel rest).map fun fr => (.obj fr.1, fr.2)
      else if c == 'n' then
        match rest with
        | 'u' :: 'l' :: 'l' :: r => some (.null, r)
        | _ => none
      else if c == 't' then
        match rest with
        | 'r' :: 'u' :: 'e' :: r => some (.bool true, r)
        | _ => none
      else if c == 'f' then
        match rest with
        | 'a' :: 'l' :: 's' :: 'e' :: r => some (.bool false, r)
        | _ => none
      else none

/-- JSON.parse: the whole text must be consumed. -/
def jsonParseString (s : String) : Option Json :=
  match parseVal (s.length + 1) s.data with
  | some (j, []) => some j
  | _ => none

/-! ## application/x-www-form-urlencoded, modelling URLSearchParams

URLSearchParams#toString leaves ASCII alphanumerics and `*-._`
unencoded, turns a space into `+`, and percent-encodes every other
byte with uppercase hex.  Only single-byte (ASCII) characters are
modelled; multi-byte UTF-8 sequences are not. -/

def formSafeChar (c : Char) : Bool :=
  c.isAlpha || c.isDigit || c == '*' || c == '-' || c == '.' || c == '_'

def hexDigitChar : Nat → Char
  | 0 => '0' | 1 => '1' | 2 => '2' | 3 => '3' | 4 => '4'
  | 5 => '5' | 6 => '6' | 7 => '7' | 8 => '8' | 9 => '9'
  | 10 => 'A' | 11 => 'B' | 12 => 'C' | 13 => 'D' | 14 => 'E' | _ => 'F'

def percentEncodeChar (c : Char) : List Char :=
  [ '%', hexDigitChar (c.toNat / 16 % 16), hexDigitChar (c.toNat % 16)]

def formEncodeChar (c : Char) : List Char :=
  if formSafeChar c then [c]
  else if c == ' ' then [ '+' ]
  else percentEncodeChar c

def formEncodeChars : List Char → List Char
  | [] => []
  | c :: tl => formEncodeChar c ++ formEncodeChars tl

def formEncodeStr (s : String) : List Char := formEncodeChars s.data

/-- Pair list rendered as `k=v&k=v&...` with both sides form-encoded. -/
def encodeFormPairs : List (String × String) → List Char
  | [] => []
  | [kv] => formEncodeStr kv.1 ++ '=' :: formEncodeStr kv.2
  | kv :: kv2 :: tl =>
    formEncodeStr kv.1 ++ '=' :: formEncodeStr kv.2 ++
      '&' :: encodeFormPairs (kv2 :: tl)

def hexVal (c : Char) : Option Nat :=
  if c.isDigit then some (c.toNat - 48)
  else if 'A' ≤ c && c ≤ 'F' then some (c.toNat - 55)
  else if 'a' ≤ c && c ≤ 'f' then some (c.toNat - 87)
  else none

def formDecodeChars : List Char → Option (List Char)
  | [] => some []
  | c :: rest =>
    if c == '%' then
      match rest with
      | h :: l :: rest2 =>
        (hexVal h).bind fun hv =>
          (hexVal l).bind fun lv =>
            (formDecodeChars rest2).map fun r => Char.ofNat (16 * hv + lv) :: r
      | _ => none
    else if c == '+' then (formDecodeChars rest).map fun r => ' ' :: r
    else (formDecodeChars rest).map fun r => c :: r

def splitOnChar (sep : Char) : List Char → List (List Char)
  | [] => [[]]
  | c :: rest =>
    let r := splitOnChar sep rest
    if c == sep then [] :: r
    else
      match r with
      | g :: gs => (c :: g) :: gs
      | [] => [[c]]

def splitPair (part : List Char) : Option (String × String) :=
  match splitOnChar '=' part with
  | [k, v] =>
    (formDecodeChars k).bind fun kc =>
      (formDecodeChars v).map fun vc => (String.mk kc, String.mk vc)
  | _ => none

/-- Decode a query string back into its ordered key/value pairs. -/
def decodeQueryChars (cs : List Char) : Option (List (String × String)) :=
  (splitOnChar '&' cs).mapM splitPair

def decodeQueryString (s : String) : Option (List (String × String)) :=
  decodeQueryChars s.data

def lookupParam (k : String) (pairs : List (String × String)) : Option String :=
  (pairs.find? fun kv => kv.1 == k).map fun kv => kv.2

/-! ## Schema validation, modelling the Zod subset the repository uses

The repository builds its response schemas from z.object, z.array,
z.number, z.string, z.union and .optional (getResponseSchemas and the
entity schemas supplied by concrete repositories).  A schema parses an
unknown value into either the validated value or a list of field-level
issues carrying a path and a message, exactly Zod's contract as the
spec describes it.  z.object strips undeclared keys and reports a
missing required key as "Required" at that key's path; z.array prefixes
each element's issues with its index. -/

structure ZodIssue where
  path : List String
  message : String
deriving DecidableEq

def jsonTypeName : Json → String
  | .null => "null"
  | .bool _ => "boolean"
  | .num _ => "number"
  | .str _ => "string"
  | .arr _ => "array"
  | .obj _ => "object"

mutual

inductive ZodSchema where
  | zstr
  | znum
  | zunion (a b : ZodSchema)
  | zopt (s : ZodSchema)
  | zarr (elem : ZodSchema)
  | zobj (fields : ZodFields)
deriving DecidableEq

inductive ZodFields where
  | nil
  | cons (key : String) (s : ZodSchema) (tl : ZodFields)
deriving DecidableEq

end

def zodIsOptional : ZodSchema → Bool
  | .zopt _ => true
  | _ => false

def issueUnder (seg : String) (i : ZodIssue) : ZodIssue :=
  ⟨seg :: i.path, i.message⟩

/-- Parse every array element, collecting all issues (index-prefixed)
and the parsed elements of the positions that succeeded. -/
def runElems (p : Json → Except (List ZodIssue) Json) :
    Nat → JsonList → List ZodIssue × JsonList
  | _, .nil => ([], .nil)
  | i, .cons x xs =>
    let rest := runElems p (i + 1) xs
    match p x with
    | .ok v => (rest.1, .cons v rest.2)
    | .error issues => (issues.map (issueUnder (natToString i)) ++ rest.1, rest.2)

mutual

def zodParse : ZodSchema → Json → Except (List ZodIssue) Json
  | .zstr, j =>
    match j with
    | .str s => .ok (.str s)
    | _ => .error [⟨[], "Expected string, received " ++ jsonTypeName j⟩]
  | .znum, j =>
    match j with
    | .num n => .ok (.num n)
    | _ => .error [⟨[], "Expected number, received " ++ jsonTypeName j⟩]
  | .zunion a b, j =>
    match zodParse a j with
    | .ok v => .ok v
    | .error _ =>
      match zodParse b j with
      | .ok v => .ok v
      | .error _ => .error [⟨[], "Invalid input"⟩]
  | .zopt s, j => zodParse s j
  | .zarr s, j =>
    match j with
    | .arr xs =>
      let r := runElems (fun v => zodParse s v) 0 xs
      if r.1.isEmpty then .ok (.arr r.2) else .error r.1
    | _ => .error [⟨[], "Expected array, received " ++ jsonTypeName j⟩]
  | .zobj fs, j =>
    match j with
    | .obj kvs =>
      let r := zodParseFields fs kvs
      if r.1.isEmpty then .ok (.obj r.2) else .error r.1
    | _ => .error [⟨[], "Expected object, received " ++ jsonTypeName j⟩]

def zodParseFields : ZodFields → JsonFields → List ZodIssue × JsonFields
  | .nil, _ => ([], .nil)
  | .cons key s tl, kvs =>
    let rest := zodParseFields tl kvs
    match jsonLookup key kvs with
    | some v =>
      match zodParse s v with
      | .ok pv => (rest.1, .cons key pv rest.2)
      | .error issues => (issues.map (issueUnder key) ++ rest.1, rest.2)
    | none =>
      if zodIsOptional s then rest
      else (⟨[key], "Required"⟩ :: rest.1, rest.2)

end

/-! ## Error taxonomy (errors/exceptions.ts)

ApiError carries message, machine-readable errorCode and HTTP
statusCode, plus the class name.  ServerError and ClientError are the
5xx- and 4xx-rooted subclasses; their constructors default the status
to 500 and 400.  toJSON produces the RFC 9457-style problem payload. -/

structure ApiError where
  name : String
  message : String
  errorCode : String
  statusCode : Nat
deriving DecidableEq

def mkApiError (message errorCode : String) (statusCode : Nat) : ApiError :=
  ⟨ "ApiError", message, errorCode, statusCode⟩

/-- ServerError constructor with an explicit status code. -/
def mkServerErrorWith (message errorCode : String) (statusCode : Nat) : ApiError :=
  ⟨ "ServerError", message, errorCode, statusCode⟩

/-- ServerError constructor with the status argument omitted (defaults to 500). -/
def mkServerError (message errorCode : String) : ApiError :=
  mkServerErrorWith message errorCode 500

/-- ClientError constructor with an explicit status code. -/
def mkClientErrorWith (message errorCode : String) (statusCode : Nat) : ApiError :=
  ⟨ "ClientError", message, errorCode, statusCode⟩

/-- ClientError constructor with the status argument omitted (defaults to 400). -/
def mkClientError (message errorCode : String) : ApiError :=
  mkClientErrorWith message errorCode 400

structure ProblemPayload where
  status : Nat
  detail : String
  code : String
deriving DecidableEq

def ApiError.toJSON (e : ApiError) : ProblemPayload :=
  ⟨e.statusCode, e.message, e.errorCode⟩

def ApiError.hasCode (e : ApiError) (code : String) : Bool :=
  e.errorCode == code

/-! ## Transport (client/BaseApiService.ts)

buildUrl, header merging, and the success path of request.  The fetch
call and the abstract handleError hook are parameters: fetch yields
either a network-level failure or an HttpResponse, handleError maps a
non-2xx response (plus the isRetry flag) to the error it raises. -/

/-- resourcePath.startsWith("/") ? resourcePath.slice(1) : resourcePath. -/
def stripLeadingSlash (s : String) : String :=
  match s.data with
  | '/' :: tl => String.mk tl
  | _ => s

/-- buildUrl: strip one leading slash from the resource path, then join
baseUrl ++ (apiPfx ++ "/" when the prefix string is non-empty, "/"
otherwise) ++ path.  (apiPfx models the apiPrefix field.) -/
def buildUrl (baseUrl apiPfx resourcePath : String) : String :=
  let cleanPath := stripLeadingSlash resourcePath
  let pfx := if apiPfx == "" then "/" else apiPfx ++ "/"
  baseUrl ++ pfx ++ cleanPath

def lowerChar (c : Char) : Char :=
  if 'A' ≤ c && c ≤ 'Z' then Char.ofNat (c.toNat + 32) else c

/-- ASCII lower-casing, as Headers applies to header names. -/
def lowerStr (s : String) : String := String.mk (s.data.map lowerChar)

/-- Headers constructed from caller options: names are normalized to
lower case, as the Headers constructor does. -/
def normalizeHeaders (hs : List (String × String)) : List (String × String) :=
  hs.map fun kv => (lowerStr kv.1, kv.2)

/-- Headers#set on an already-normalized name: replace the binding if
present, append it otherwise. -/
def headersSetN (hs : List (String × String)) (kn v : String) :
    List (String × String) :=
  if hs.any (fun kv => kv.1 == kn) then
    hs.map fun kv => if kv.1 == kn then (kn, v) else kv
  else hs ++ [(kn, v)]

/-- Headers#set: names are normalized to lower case. -/
def headersSet (hs : List (String × String)) (k v : String) :
    List (String × String) :=
  headersSetN hs (lowerStr k) v

/-- Lines 68-73 of request: start from the caller-supplied headers and
call Headers#set with every auth header entry. -/
def mergeAuthHeaders (callerHeaders authHeaders : List (String × String)) :
    List (String × String) :=
  authHeaders.foldl (fun hs kv => headersSet hs kv.1 kv.2)
    (normalizeHeaders callerHeaders)

def headerGet (hs : List (String × String)) (k : String) : Option String :=
  (hs.find? fun kv => kv.1 == lowerStr k).map fun kv => kv.2

structure HttpResponse where
  status : Nat
  headers : List (String × String)
  body : String
deriving DecidableEq

/-- Response.ok: status in the 2xx range. -/
def responseOk (res : HttpResponse) : Bool :=
  200 ≤ res.status && res.status ≤ 299

def contentTypeOf (res : HttpResponse) : String :=
  (headerGet res.headers "content-type").getD ""

def listHasPre : List Char → List Char → Bool
  | [], _ => true
  | _ :: _, [] => false
  | a :: as, b :: bs => a == b && listHasPre as bs

def listContainsSub (needle : List Char) : List Char → Bool
  | [] => listHasPre needle []
  | c :: tl => listHasPre needle (c :: tl) || listContainsSub needle tl

/-- String#includes. -/
def includesStr (needle hay : String) : Bool :=
  listContainsSub needle.data hay.data

/-- Value a successful request resolves to: null for empty bodies,
parsed JSON for JSON content types, raw text otherwise. -/
inductive RequestValue where
  | empty
  | json (j : Json)
  | text (s : String)
deriving DecidableEq

inductive RequestFailure where
  | network (e : String)
  | handled (e : String)
  | invalidJson
deriving DecidableEq

/-- Lines 86-102 of request: the success path after res.ok. -/
def handleSuccessBody (res : HttpResponse) : Except RequestFailure RequestValue :=
  if res.status == 204 || res.status == 205 then .ok .empty
  else if res.body == "" then .ok .empty
  else if includesStr "application/json" (contentTypeOf res) then
    match jsonParseString res.body with
    | some j => .ok (.json j)
    | none => .error .invalidJson
  else .ok (.text res.body)

/-- BaseApiService#request: merge auth headers over the caller's
headers, dispatch, delegate non-2xx responses to handleError, and
decode successful bodies. -/
def request (handleError : HttpResponse → Bool → String)
    (fetchImpl : String → List (String × String) → Except String HttpResponse)
    (url : String) (callerHeaders authHeaders : List (String × String))
    (isRetry : Bool) : Except RequestFailure RequestValue :=
  let headers := mergeAuthHeaders callerHeaders authHeaders
  match fetchImpl url headers with
  | .error e => .error (.network e)
  | .ok res =>
    if responseOk res then handleSuccessBody res
    else .error (.handled (handleError res isRetry))

/-! ## Repository (repositories/BaseCrudRepository.ts and types.ts)

A repository instance is its immutable configuration: resource name,
entity schema and the transport's URL configuration.  The transport's
request method is abstracted as a function from URL and options to
either a raised transport error or the decoded body. -/

/-- Entity identifier: string | number. -/
inductive EntityId where
  | str (s : String)
  | num (n : Nat)
deriving DecidableEq

/-- Template-literal stringification of an id. -/
def idStr : EntityId → String
  | .str s => s
  | .num n => natToString n

inductive SortOrder where
  | asc
  | desc
deriving DecidableEq

structure Sorter where
  field : String
  order : SortOrder
deriving DecidableEq

structure FilterClause where
  field : String
  operator : String
  value : Json
deriving DecidableEq

structure PaginationParams where
  current : Option Nat
  pageSize : Option Nat
deriving DecidableEq

structure GetListParams where
  pagination : Option PaginationParams
  sorters : Option (List Sorter)
  filters : Option (List FilterClause)
deriving DecidableEq

/-- Options of a dispatched request (subset of RequestInit the
repository constructs: method, Content-Type header, body). -/
structure ReqOptions where
  method : String
  contentTypeJson : Bool
  body : Option String
deriving DecidableEq

/-- apiService.request as the repository sees it: URL and options in,
decoded body or raised error out. -/
abbrev Transport := String → Option ReqOptions → Except String Json

structure Repo where
  resource : String
  dataSchema : ZodSchema
  baseUrl : String
  apiPfx : String

/-- apiService.buildUrl(this.resource). -/
def Repo.resourceUrl (repo : Repo) : String :=
  buildUrl repo.baseUrl repo.apiPfx repo.resource

/-- Errors a repository operation raises: a propagated transport error
or a schema-validation error. -/
inductive RepoError where
  | transportErr (e : String)
  | validationErr (msg : String)
deriving DecidableEq

def issueText (i : ZodIssue) : String :=
  String.intercalate "." i.path ++ ": " ++ i.message

/-- The message validateResponse builds from a ZodError's issues. -/
def validationMessage (resource : String) (issues : List ZodIssue) : String :=
  "API response validation failed for " ++ resource ++ ": " ++
    String.intercalate "; " (issues.map issueText)

/-- validateResponse: return the parsed value, or raise the descriptive
validation error built from all issues. -/
def validateResponse (resource : String) (schema : ZodSchema) (data : Json) :
    Except RepoError Json :=
  match zodParse schema data with
  | .ok v => .ok v
  | .error issues => .error (.validationErr (validationMessage resource issues))

/-- Shared shape of every single-request operation: propagate a raised
transport error, validate a decoded body. -/
def runOp (resource : String) (schema : ZodSchema) (t : Except String Json) :
    Except RepoError Json :=
  match t with
  | .error e => .error (.transportErr e)
  | .ok raw => validateResponse resource schema raw

/-! getResponseSchemas: response envelope schemas built from the entity
schema. -/

def paginationSchema : ZodSchema :=
  .zobj (.cons "current" .znum (.cons "pageSize" .znum (.cons "total" .znum .nil)))

def getListSchema (dataSchema : ZodSchema) : ZodSchema :=
  .zobj (.cons "data" (.zarr dataSchema)
        (.cons "total" .znum
        (.cons "pagination" (.zopt paginationSchema) .nil)))

def getOneSchema (dataSchema : ZodSchema) : ZodSchema :=
  .zobj (.cons "data" dataSchema .nil)

def getManySchema (dataSchema : ZodSchema) : ZodSchema :=
  .zobj (.cons "data" (.zarr dataSchema) .nil)

def createSchema (dataSchema : ZodSchema) : ZodSchema :=
  .zobj (.cons "data" dataSchema .nil)

def updateSchema (dataSchema : ZodSchema) : ZodSchema :=
  .zobj (.cons "data" dataSchema .nil)

def deleteOneSchema (dataSchema : ZodSchema) : ZodSchema :=
  .zobj (.cons "data" dataSchema .nil)

/-! getList query encoding. -/

def sortOrderStr : SortOrder → String
  | .asc => "asc"
  | .desc => "desc"

/-- One sorter as the [field, direction] pair of the backend format. -/
def sorterJson (s : Sorter) : Json :=
  .arr (.cons (.str s.field) (.cons (.str (sortOrderStr s.order)) .nil))

def sortArrayJson (ss : List Sorter) : Json :=
  .arr (JsonList.ofList (ss.map sorterJson))

/-- One filter clause as its JSON object, fields in declaration order. -/
def filterJson (f : FilterClause) : Json :=
  .obj (.cons "field" (.str f.field)
       (.cons "operator" (.str f.operator)
       (.cons "value" f.value .nil)))

def filtersJson (fs : List FilterClause) : Json :=
  .arr (JsonList.ofList (fs.map filterJson))

/-- The ordered query parameters getList appends to URLSearchParams:
current and pageSize always (defaulting to 1 and 10), sort and filters
only when the corresponding sequence is present and non-empty. -/
def getListQueryPairs (params : Option GetListParams) : List (String × String) :=
  let pag := params.bind fun p => p.pagination
  let current := (pag.bind fun p => p.current).getD 1
  let pageSize := (pag.bind fun p => p.pageSize).getD 10
  [("current", natToString current), ("pageSize", natToString pageSize)]
    ++ (match params.bind fun p => p.sorters with
        | some ss =>
          if 0 < ss.length then [("sort", jsonStringify (sortArrayJson ss))]
          else []
        | none => [])
    ++ (match params.bind fun p => p.filters with
        | some fs =>
          if 0 < fs.length then [("filters", jsonStringify (filtersJson fs))]
          else []
        | none => [])

/-- queryParams.toString(). -/
def getListQueryString (params : Option GetListParams) : String :=
  String.mk (encodeFormPairs (getListQueryPairs params))

def getListUrl (repo : Repo) (params : Option GetListParams) : String :=
  Repo.resourceUrl repo ++ "?" ++ getListQueryString params

/-! The CRUD operations. -/

def getList (repo : Repo) (transport : Transport)
    (params : Option GetListParams) (fetchOptions : Option ReqOptions) :
    Except RepoError Json :=
  runOp repo.resource (getListSchema repo.dataSchema)
    (transport (getListUrl repo params) fetchOptions)

def getOneUrl (repo : Repo) (id : EntityId) : String :=
  Repo.resourceUrl repo ++ "/" ++ idStr id

def getOne (repo : Repo) (transport : Transport) (id : EntityId)
    (fetchOptions : Option ReqOptions) : Except RepoError Json :=
  runOp repo.resource (getOneSchema repo.dataSchema)
    (transport (getOneUrl repo id) fetchOptions)

def create (repo : Repo) (transport : Transport) (vars : Json) :
    Except RepoError Json :=
  runOp repo.resource (createSchema repo.dataSchema)
    (transport (Repo.resourceUrl repo)
      (some ⟨ "POST", true, some (jsonStringify vars)⟩))

def update (repo : Repo) (transport : Transport) (id : EntityId)
    (vars : Json) : Except RepoError Json :=
  runOp repo.resource (updateSchema repo.dataSchema)
    (transport (Repo.resourceUrl repo ++ "/" ++ idStr id)
      (some ⟨ "PATCH", true, some (jsonStringify vars)⟩))

def deleteOne (repo : Repo) (transport : Transport) (id : EntityId) :
    Except RepoError Json :=
  runOp repo.resource (deleteOneSchema repo.dataSchema)
    (transport (Repo.resourceUrl repo ++ "/" ++ idStr id)
      (some ⟨ "DELETE", true, none⟩))

/-! getMany: one getOne-equivalent task per id, combined with
Promise.all.  Promise.all is modelled with an explicit completion
schedule: the order in which the per-id promises settle.  It rejects
with the first rejection in completion order and otherwise resolves
with the values in task order, so the schedule can only influence
WHICH error is raised, never the order of a successful result. -/

def firstScheduledError (tasks : List (Except RepoError Json)) :
    List Nat → Option RepoError
  | [] => none
  | i :: rest =>
    match tasks.get? i with
    | some (.error e) => some e
    | _ => firstScheduledError tasks rest

def seqExcept : List (Except RepoError Json) → Except RepoError (List Json)
  | [] => .ok []
  | .ok v :: rest => (seqExcept rest).map fun vs => v :: vs
  | .error e :: _ => .error e

def promiseAll (tasks : List (Except RepoError Json)) (schedule : List Nat) :
    Except RepoError (List Json) :=
  match firstScheduledError tasks schedule with
  | some e => .error e
  | none => seqExcept tasks

/-- The per-id task of getMany: request the getOne URL and validate
against the single-entity schema. -/
def getManyTask (repo : Repo) (transport : Transport)
    (fetchOptions : Option ReqOptions) (id : EntityId) : Except RepoError Json :=
  runOp repo.resource (getOneSchema repo.dataSchema)
    (transport (getOneUrl repo id) fetchOptions)

/-- The URLs getMany dispatches: exactly one getOne URL per id, in the
order of the ids list. -/
def getManyUrls (repo : Repo) (ids : List EntityId) : List String :=
  ids.map fun id => getOneUrl repo id

/-- response.data of a validated single-entity response. -/
def responseData (r : Json) : Json :=
  match r with
  | .obj fs => (jsonLookup "data" fs).getD .null
  | _ => .null

def getMany (repo : Repo) (transport : Transport) (ids : List EntityId)
    (fetchOptions : Option ReqOptions) (schedule : List Nat) :
    Except RepoError Json :=
  match promiseAll (ids.map (getManyTask repo transport fetchOptions)) schedule with
  | .error e => .error e
  | .ok responses =>
    let finalResponse :=
      Json.obj (.cons "data" (.arr (JsonList.ofList (responses.map responseData))) .nil)
    validateResponse repo.resource (getManySchema repo.dataSchema) finalResponse

/-! ## Test fixture (the TestRepository of the test suite)

Entity schema: id string|number, name string, optional createdAt and
updatedAt timestamps. -/

def testDataSchema : ZodSchema :=
  .zobj (.cons "id" (.zunion .zstr .znum)
        (.cons "name" .zstr
        (.cons "createdAt" (.zopt .zstr)
        (.cons "updatedAt" (.zopt .zstr) .nil))))

def testRepo : Repo :=
  ⟨ "tests", testDataSchema, "http://api.test", "/api/v1"⟩

def testEntity (s : String) : Json :=
  .obj (.cons "id" (.str s) (.cons "name" (.str ("Test Item " ++ s)) .nil))

def testEnt (id : EntityId) : Json := testEntity (idStr id)

def singleEnvelope (e : Json) : Json := .obj (.cons "data" e .nil)

/-- Mock transport serving the three test entities by URL. -/
def mockTransport3 : Transport := fun url _ =>
  if url == "http://api.test/api/v1/tests/1" then .ok (singleEnvelope (testEntity "1"))
  else if url == "http://api.test/api/v1/tests/2" then .ok (singleEnvelope (testEntity "2"))
  else if url == "http://api.test/api/v1/tests/3" then .ok (singleEnvelope (testEntity "3"))
  else .error "unexpected URL"

/-- Mock transport answering every request with an entity missing the
required name field. -/
def mockMissingName : Transport := fun _ _ =>
  .ok (.obj (.cons "data" (.obj (.cons "id" (.str "1") .nil)) .nil))

/-- Mock transport failing every request at the network level. -/
def mockFailing : Transport := fun _ _ => .error "network down"

/-- Whether a character list contains two consecutive path separators,
i.e. an empty path segment. -/
def hasDoubleSlash : List Char → Bool
  | [] => false
  | [_] => false
  | c :: c2 :: tl => (c == '/' && c2 == '/') || hasDoubleSlash (c2 :: tl)

/-! Fuel bound for the parser, one unit per grammar step. -/

mutual

def jsonFuel : Json → Nat
  | .arr es => jsonFuelList es + 1
  | .obj fs => jsonFuelFields fs + 1
  | _ => 1

def jsonFuelList : JsonList → Nat
  | .nil => 1
  | .cons x tl => max (jsonFuel x) (jsonFuelList tl) + 1

def jsonFuelFields : JsonFields → Nat
  | .nil => 1
  | .cons _ v tl => max (jsonFuel v) (jsonFuelFields tl) + 1

end

/-- A number token must not be followed immediately by another digit. -/
def delimOkB : List Char → Bool
  | [] => true
  | c :: _ => !c.isDigit

def asciiChar (c : Char) : Bool := decide (c.toNat < 128)

def asciiStr (s : String) : Bool := s.data.all asciiChar

/-! All strings of a JSON value are single-byte (ASCII), the fragment
of UTF-8 the form-encoding model covers. -/

mutual

def asciiJson : Json → Bool
  | .str s => asciiStr s
  | .arr es => asciiList es
  | .obj fs => asciiFields fs
  | _ => true

def asciiList : JsonList → Bool
  | .nil => true
  | .cons x tl => asciiJson x && asciiList tl

def asciiFields : JsonFields → Bool
  | .nil => true
  | .cons k v tl => asciiStr k && asciiJson v && asciiFields tl

end

/-! # Theorems -/

/-! The encoder model reproduces the exact query string the
repository's getList test asserts for current=2, pageSize=20, one
ascending name sorter and one eq-filter on name. -/

set_option maxRecDepth 4000 in
theorem getListQueryString_fixture :
    getListQueryString (some ⟨some ⟨some 2, some 20⟩, some [⟨ "name", .asc⟩],
      some [⟨ "name", "eq", .str "test"⟩]⟩) =
    "current=2&pageSize=20&sort=%5B%5B%22name%22%2C%22asc%22%5D%5D&filters=%5B%7B%22field%22%3A%22name%22%2C%22operator%22%3A%22eq%22%2C%22value%22%3A%22test%22%7D%5D" := rfl

/-- C9: the 5xx-rooted error class defaults its status to 500 and the
4xx-rooted one to 400 when no status is given, and every error
constructed from (message, code, status) serializes via toJSON to the
payload carrying exactly status, detail = message and code. -/
theorem error_defaults_and_toJSON :
    ∀ m c : String, ∀ s : Nat,
      (mkServerError m c).statusCode = 500 ∧
      (mkClientError m c).statusCode = 400 ∧
      ApiError.toJSON (mkApiError m c s) = ⟨s, m, c⟩ ∧
      ApiError.toJSON (mkServerErrorWith m c s) = ⟨s, m, c⟩ ∧
      ApiError.toJSON (mkClientErrorWith m c s) = ⟨s, m, c⟩ := by
  intro m c s
  exact ⟨rfl, rfl, rfl, rfl, rfl⟩

/-- C3 counterexample: for the trailing-separator prefix "/x/" of the
claimed prefix set, buildUrl emits two consecutive separators, i.e. an
empty path segment, between prefix and path. -/
theorem buildUrl_trailing_sep_counterexample :
    buildUrl "" "/x/" "y" = "/x//y" ∧
    hasDoubleSlash (buildUrl "" "/x/" "y").data = true ∧
    buildUrl "" "/x/" "y" ≠ "/x/y" := by
  refine ⟨by decide, by decide, by decide⟩

/-- C3 amended: for prefixes without a trailing separator ("" and
"/x"), buildUrl strips a single leading separator from the path and
joins baseURL, prefix and path with exactly one separator and no empty
path segment; for the trailing-separator prefix "/x/" it appends a
further separator, producing the empty path segment of the
counterexample. -/
theorem buildUrl_single_separator_amended :
    ∀ b : String,
      buildUrl b "" "y" = b ++ "/y" ∧
      buildUrl b "" "/y" = b ++ "/y" ∧
      buildUrl b "/x" "y" = b ++ "/x/y" ∧
      buildUrl b "/x" "/y" = b ++ "/x/y" ∧
      hasDoubleSlash ("/x/y").data = false ∧
      hasDoubleSlash ("/y").data = false ∧
      buildUrl b "/x/" "y" = b ++ "/x//y" := by
  intro b
  refine ⟨?_, ?_, ?_, ?_, by decide, by decide, ?_⟩ <;>
    · show b ++ _ ++ _ = _
      rw [String.append_assoc]
      exact congrArg (fun t => b ++ t) (by decide)

/-! ## Header merging lemmas (for C4) -/

theorem find?_map_set_ne (kn v k2n : String) (hne : k2n ≠ kn) :
    ∀ hs : List (String × String),
      List.find? (fun kv => kv.1 == k2n)
        (hs.map fun kv => if kv.1 == kn then (kn, v) else kv) =
      List.find? (fun kv => kv.1 == k2n) hs
  | [] => rfl
  | kv :: tl => by
    cases hk : kv.1 == kn
    · simp only [List.map_cons, hk, Bool.false_eq_true, if_false, List.find?]
      cases hkc : kv.1 == k2n
      · exact find?_map_set_ne kn v k2n hne tl
      · rfl
    · have h1 : (kn == k2n) = false := beq_eq_false_iff_ne.mpr (Ne.symm hne)
      have h2 : (kv.1 == k2n) = false := by
        rw [eq_of_beq hk]
        exact h1
      simp only [List.map_cons, hk, if_true, List.find?, h1, h2]
      exact find?_map_set_ne kn v k2n hne tl

theorem find?_append_single_ne (kn v k2n : String) (hne : k2n ≠ kn) :
    ∀ hs : List (String × String),
      List.find? (fun kv => kv.1 == k2n) (hs ++ [(kn, v)]) =
      List.find? (fun kv => kv.1 == k2n) hs
  | [] => by
    have h1 : (kn == k2n) = false := beq_eq_false_iff_ne.mpr (Ne.symm hne)
    simp [List.find?, h1]
  | kv :: tl => by
    simp only [List.cons_append, List.find?]
    cases hkc : kv.1 == k2n
    · exact find?_append_single_ne kn v k2n hne tl
    · rfl

theorem headerGet_headersSetN_ne (hs : List (String × String)) (kn v k2n : String)
    (hne : k2n ≠ kn) :
    List.find? (fun kv => kv.1 == k2n) (headersSetN hs kn v) =
    List.find? (fun kv => kv.1 == k2n) hs := by
  unfold headersSetN
  cases h : hs.any (fun kv => kv.1 == kn)
  · simp only [h, Bool.false_eq_true, if_false]
    exact find?_append_single_ne kn v k2n hne hs
  · simp only [h, if_true]
    exact find?_map_set_ne kn v k2n hne hs

theorem find?_map_set_self (kn v : String) :
    ∀ hs : List (String × String),
      hs.any (fun kv => kv.1 == kn) = true →
      List.find? (fun kv => kv.1 == kn)
        (hs.map fun kv => if kv.1 == kn then (kn, v) else kv) = some (kn, v)
  | [], h => by simp at h
  | kv :: tl, h => by
    cases hk : kv.1 == kn
    · simp only [List.any_cons, hk, Bool.false_or] at h
      simp only [List.map_cons, hk, Bool.false_eq_true, if_false, List.find?]
      cases hkc : kv.1 == kn
      · exact find?_map_set_self kn v tl h
      · exact absurd hkc (by simp [hk])
    · simp [List.find?, hk]

theorem find?_append_single_self (kn v : String) :
    ∀ hs : List (String × String),
      hs.any (fun kv => kv.1 == kn) = false →
      List.find? (fun kv => kv.1 == kn) (hs ++ [(kn, v)]) = some (kn, v)
  | [], _ => by simp [List.find?]
  | kv :: tl, h => by
    simp only [List.any_cons, Bool.or_eq_false_iff] at h
    simp only [List.cons_append, List.find?, h.1]
    exact find?_append_single_self kn v tl h.2

theorem headerGet_headersSetN_self (hs : List (String × String)) (kn v : String) :
    List.find? (fun kv => kv.1 == kn) (headersSetN hs kn v) = some (kn, v) := by
  unfold headersSetN
  cases h : hs.any (fun kv => kv.1 == kn)
  · simp only [h, Bool.false_eq_true, if_false]
    exact find?_append_single_self kn v hs h
  · simp only [h, if_true]
    exact find?_map_set_self kn v hs h

theorem headerGet_foldl_set_ne :
    ∀ (auth hs : List (String × String)) (k2n : String),
      (∀ kv ∈ auth, lowerStr kv.1 ≠ k2n) →
      List.find? (fun kv => kv.1 == k2n)
        (auth.foldl (fun hs kv => headersSet hs kv.1 kv.2) hs) =
      List.find? (fun kv => kv.1 == k2n) hs
  | [], _, _, _ => rfl
  | kv :: tl, hs, k2n, h => by
    simp only [List.foldl_cons]
    rw [headerGet_foldl_set_ne tl _ k2n fun x hx => h x (List.mem_cons_of_mem kv hx)]
    exact headerGet_headersSetN_ne hs (lowerStr kv.1) kv.2 k2n
      fun e => h kv (List.mem_cons_self kv tl) e.symm

theorem headerGet_merge_of_mem :
    ∀ (auth hs : List (String × String)) (k v : String),
      (k, v) ∈ auth →
      (auth.map fun kv => lowerStr kv.1).Nodup →
      List.find? (fun kv => kv.1 == lowerStr k)
        (auth.foldl (fun hs kv => headersSet hs kv.1 kv.2) hs) =
      some (lowerStr k, v)
  | [], _, _, _, hmem, _ => absurd hmem (List.not_mem_nil _)
  | kv :: tl, hs, k, v, hmem, hnd => by
    simp only [List.map_cons, List.nodup_cons] at hnd
    rcases List.mem_cons.mp hmem with heq | hmem2
    · cases heq.symm
      simp only [List.foldl_cons]
      rw [headerGet_foldl_set_ne tl _ (lowerStr k) ?_]
      · exact headerGet_headersSetN_self hs (lowerStr k) v
      · intro x hx he
        exact hnd.1 (List.mem_map.mpr ⟨x, hx, he⟩)
    · simp only [List.foldl_cons]
      exact headerGet_merge_of_mem tl _ k v hmem2 hnd.2

/-- C4 counterexample: when the caller options and the auth provider
both define the same header name, the dispatched headers carry the
auth provider's value, not the caller's: Headers#set overwrites the
caller-supplied base. -/
theorem merge_headers_caller_precedence_counterexample :
    headerGet (mergeAuthHeaders [("X-Api-Key", "caller-value")]
        [("X-Api-Key", "auth-value")]) "X-Api-Key" = some "auth-value" ∧
    some "auth-value" ≠ some "caller-value" := by
  exact ⟨by decide, by decide⟩

/-- C4 amended: on a name collision the auth-provider value wins: the
caller-supplied options form the base of the merged headers and every
auth header overwrites the entry of its (case-normalized) name. -/
theorem merge_headers_auth_precedence :
    ∀ (callerHeaders authHeaders : List (String × String)) (k v : String),
      (k, v) ∈ authHeaders →
      (authHeaders.map fun kv => lowerStr kv.1).Nodup →
      headerGet (mergeAuthHeaders callerHeaders authHeaders) k = some v := by
  intro caller auth k v hmem hnd
  unfold headerGet mergeAuthHeaders
  rw [headerGet_merge_of_mem auth _ k v hmem hnd]
  rfl

theorem merge_headers_auth_precedence_witness :
    headerGet (mergeAuthHeaders [("X-Api-Key", "caller-value"), ("Accept", "text/plain")]
        [("X-Api-Key", "auth-value")]) "X-Api-Key" = some "auth-value" :=
  merge_headers_auth_precedence _ _ "X-Api-Key" "auth-value" (by decide) (by decide)

/-! ## getMany lemmas (C1, C7, C10) -/

theorem firstScheduledError_nil : ∀ schedule : List Nat,
    firstScheduledError [] schedule = none
  | [] => rfl
  | _ :: tl => firstScheduledError_nil tl

/-- C10: getMany on an empty id list dispatches no request at all and
resolves to the empty batch envelope. -/
theorem getMany_empty_ids :
    ∀ (repo : Repo) (transport : Transport) (fetchOptions : Option ReqOptions)
      (schedule : List Nat),
      getManyUrls repo [] = [] ∧
      getMany repo transport [] fetchOptions schedule =
        .ok (.obj (.cons "data" (.arr .nil) .nil)) := by
  intro repo transport fetchOptions schedule
  refine ⟨rfl, ?_⟩
  unfold getMany promiseAll
  rw [show List.map (getManyTask repo transport fetchOptions) [] = [] from rfl]
  rw [firstScheduledError_nil]
  rfl

theorem seqExcept_error_of_mem :
    ∀ (tasks : List (Except RepoError Json)) (i : Nat) (e : RepoError),
      tasks.get? i = some (.error e) → ∃ e2, seqExcept tasks = .error e2
  | [], i, e, h => by simp at h
  | .ok v :: tl, i, e, h => by
    cases i with
    | zero => simp at h
    | succ n =>
      obtain ⟨e2, he2⟩ := seqExcept_error_of_mem tl n e (by simpa using h)
      exact ⟨e2, by simp [seqExcept, he2, Except.map]⟩
  | .error e0 :: tl, i, e, h => ⟨e0, rfl⟩

theorem promiseAll_error_of_task_error :
    ∀ (tasks : List (Except RepoError Json)) (schedule : List Nat) (i : Nat)
      (e : RepoError),
      tasks.get? i = some (.error e) →
      ∃ e2, promiseAll tasks schedule = .error e2 := by
  intro tasks schedule i e h
  unfold promiseAll
  cases hf : firstScheduledError tasks schedule
  · obtain ⟨e2, he2⟩ := seqExcept_error_of_mem tasks i e h
    exact ⟨e2, by rw [he2]⟩
  · exact ⟨_, rfl⟩

/-- C7: if any one of the per-id requests of getMany fails -- the
transport raises, or the response fails schema validation -- the whole
getMany call raises; no partial batch result is returned. -/
theorem getMany_all_or_nothing :
    ∀ (repo : Repo) (transport : Transport) (fetchOptions : Option ReqOptions)
      (ids : List EntityId) (schedule : List Nat) (i : Nat) (id : EntityId),
      ids.get? i = some id →
      ((∃ e, transport (getOneUrl repo id) fetchOptions = .error e) ∨
        (∃ raw issues, transport (getOneUrl repo id) fetchOptions = .ok raw ∧
          zodParse (getOneSchema repo.dataSchema) raw = .error issues)) →
      ∃ err, getMany repo transport ids fetchOptions schedule = .error err := by
  intro repo transport fetchOptions ids schedule i id hid hfail
  have htask : ∃ e0, getManyTask repo transport fetchOptions id = .error e0 := by
    rcases hfail with ⟨e, he⟩ | ⟨raw, issues, hraw, hzod⟩
    · exact ⟨.transportErr e, by simp [getManyTask, runOp, he]⟩
    · refine ⟨.validationErr (validationMessage repo.resource issues), ?_⟩
      simp [getManyTask, runOp, hraw, validateResponse, hzod]
  obtain ⟨e0, he0⟩ := htask
  have hget : (ids.map (getManyTask repo transport fetchOptions)).get? i =
      some (.error e0) := by
    rw [List.get?_map, hid]
    show some (getManyTask repo transport fetchOptions id) = some (.error e0)
    rw [he0]
  obtain ⟨e2, he2⟩ := promiseAll_error_of_task_error _ schedule i e0 hget
  refine ⟨e2, ?_⟩
  unfold getMany
  rw [he2]

theorem getMany_all_or_nothing_witness :
    ∃ err, getMany testRepo mockFailing [.str "1", .str "2", .str "3"] none [0, 1, 2] =
      .error err :=
  getMany_all_or_nothing testRepo mockFailing none [.str "1", .str "2", .str "3"]
    [0, 1, 2] 0 (.str "1") (by decide) (.inl ⟨ "network down", rfl⟩)

theorem firstScheduledError_none_of_all_ok :
    ∀ (tasks : List (Except RepoError Json)),
      (∀ t ∈ tasks, ∃ v, t = .ok v) →
      ∀ schedule, firstScheduledError tasks schedule = none := by
  intro tasks hok schedule
  induction schedule with
  | nil => rfl
  | cons i tl ih =>
    unfold firstScheduledError
    cases ht : tasks.get? i with
    | none => exact ih
    | some t =>
      obtain ⟨v, rfl⟩ := hok t (List.get?_mem ht)
      exact ih

theorem seqExcept_map_ok {α : Type} (f : α → Except RepoError Json) (g : α → Json) :
    ∀ l : List α, (∀ x ∈ l, f x = .ok (g x)) →
      seqExcept (l.map f) = .ok (l.map g)
  | [], _ => rfl
  | x :: tl, h => by
    have hx := h x (List.mem_cons_self x tl)
    have htl := seqExcept_map_ok f g tl fun y hy => h y (List.mem_cons_of_mem x hy)
    calc seqExcept (List.map f (x :: tl))
        = seqExcept (.ok (g x) :: List.map f tl) := by
          rw [List.map_cons, hx]
      _ = (seqExcept (List.map f tl)).map (fun vs => g x :: vs) := rfl
      _ = (Except.ok (List.map g tl)).map (fun vs => g x :: vs) := by rw [htl]
      _ = .ok (List.map g (x :: tl)) := rfl

theorem runElems_self (p : Json → Except (List ZodIssue) Json) :
    ∀ (l : List Json) (i : Nat), (∀ x ∈ l, p x = .ok x) →
      runElems p i (JsonList.ofList l) = ([], JsonList.ofList l)
  | [], _, _ => rfl
  | x :: tl, i, h => by
    have hx := h x (List.mem_cons_self x tl)
    have htl := runElems_self p tl (i + 1) fun y hy => h y (List.mem_cons_of_mem x hy)
    show runElems p i (.cons x (JsonList.ofList tl)) = _
    simp only [runElems, htl, hx]
    rfl

/-- C1: getMany issues exactly one single-item request per id (the
getOne URL of that id, in the order of the ids), and -- for any
completion schedule whatsoever -- resolves to the batch envelope whose
entities are listed in exactly the order of the requested ids. -/
theorem getMany_one_request_per_id_in_order :
    ∀ (repo : Repo) (transport : Transport) (fetchOptions : Option ReqOptions)
      (ids : List EntityId) (schedule : List Nat) (ent : EntityId → Json),
      (∀ id ∈ ids, ∃ raw,
          transport (getOneUrl repo id) fetchOptions = .ok raw ∧
          zodParse (getOneSchema repo.dataSchema) raw =
            .ok (.obj (.cons "data" (ent id) .nil)) ∧
          zodParse repo.dataSchema (ent id) = .ok (ent id)) →
      getManyUrls repo ids = ids.map (fun id => getOneUrl repo id) ∧
      (getManyUrls repo ids).length = ids.length ∧
      getMany repo transport ids fetchOptions schedule =
        .ok (.obj (.cons "data" (.arr (JsonList.ofList (ids.map ent))) .nil)) := by
  intro repo transport fetchOptions ids schedule ent hyp
  refine ⟨rfl, by simp [getManyUrls], ?_⟩
  have htask : ∀ id ∈ ids, getManyTask repo transport fetchOptions id =
      .ok (.obj (.cons "data" (ent id) .nil)) := by
    intro id hid
    obtain ⟨raw, hraw, hzod, _⟩ := hyp id hid
    simp [getManyTask, runOp, hraw, validateResponse, hzod]
  have hallok : ∀ t ∈ ids.map (getManyTask repo transport fetchOptions), ∃ v, t = .ok v := by
    intro t ht
    obtain ⟨id, hid, rfl⟩ := List.mem_map.mp ht
    exact ⟨_, htask id hid⟩
  have hElems : runElems (fun v => zodParse repo.dataSchema v) 0
      (JsonList.ofList (ids.map ent)) = ([], JsonList.ofList (ids.map ent)) := by
    apply runElems_self
    intro x hx
    obtain ⟨id, hid2, rfl⟩ := List.mem_map.mp hx
    obtain ⟨raw, _, _, hre⟩ := hyp id hid2
    exact hre
  have hZodFinal : zodParse (getManySchema repo.dataSchema)
      (.obj (.cons "data" (.arr (JsonList.ofList (ids.map ent))) .nil)) =
      .ok (.obj (.cons "data" (.arr (JsonList.ofList (ids.map ent))) .nil)) := by
    simp [getManySchema, zodParse, zodParseFields, jsonLookup, hElems]
  unfold getMany promiseAll
  rw [firstScheduledError_none_of_all_ok _ hallok schedule]
  rw [seqExcept_map_ok (getManyTask repo transport fetchOptions)
    (fun id => .obj (.cons "data" (ent id) .nil)) ids htask]
  show validateResponse repo.resource (getManySchema repo.dataSchema)
      (Json.obj (.cons "data"
        (.arr (JsonList.ofList
          ((ids.map fun id => Json.obj (.cons "data" (ent id) .nil)).map responseData)))
        .nil)) = _
  rw [show ((ids.map fun id => Json.obj (.cons "data" (ent id) .nil)).map responseData) =
      ids.map ent from by rw [List.map_map]; rfl]
  unfold validateResponse
  rw [hZodFinal]

theorem getMany_one_request_per_id_in_order_witness :
    getManyUrls testRepo [.str "1", .str "2", .str "3"] =
      [EntityId.str "1", .str "2", .str "3"].map (fun id => getOneUrl testRepo id) ∧
    (getManyUrls testRepo [.str "1", .str "2", .str "3"]).length =
      ([EntityId.str "1", .str "2", .str "3"]).length ∧
    getMany testRepo mockTransport3 [.str "1", .str "2", .str "3"] none [1, 0, 2] =
      .ok (.obj (.cons "data"
        (.arr (JsonList.ofList ([EntityId.str "1", .str "2", .str "3"].map testEnt)))
        .nil)) :=
  getMany_one_request_per_id_in_order testRepo mockTransport3 none
    [.str "1", .str "2", .str "3"] [1, 0, 2] testEnt
    (by intro id hid; fin_cases hid <;> exact ⟨_, rfl, rfl, rfl⟩)

/-! ## Validation error lemmas (C2) -/

theorem runOp_transport_error (r : String) (s : ZodSchema) (e : String) :
    runOp r s (.error e) = .error (.transportErr e) := rfl

theorem runOp_transport_ok (r : String) (s : ZodSchema) (raw : Json) :
    runOp r s (.ok raw) = validateResponse r s raw := rfl

theorem validateResponse_of_zod_error {r : String} {s : ZodSchema} {raw : Json}
    {issues : List ZodIssue} (hz : zodParse s raw = .error issues) :
    validateResponse r s raw = .error (.validationErr (validationMessage r issues)) := by
  unfold validateResponse
  rw [hz]

theorem validateResponse_eq_ok {r : String} {s : ZodSchema} {raw v : Json} :
    validateResponse r s raw = .ok v ↔ zodParse s raw = .ok v := by
  unfold validateResponse
  split
  next w hw =>
    rw [hw]
    exact ⟨fun h => by rw [Except.ok.inj h], fun h => by rw [Except.ok.inj h]⟩
  next iss hiss =>
    rw [hiss]
    constructor
    · intro h
      exact absurd h (by simp)
    · intro h
      exact absurd h (by simp)

theorem validateResponse_validationErr {r : String} {s : ZodSchema} {raw : Json}
    {m : String} :
    validateResponse r s raw = .error (.validationErr m) →
    ∃ issues, m = validationMessage r issues := by
  unfold validateResponse
  split
  next w hw =>
    intro h
    exact absurd h (by simp)
  next iss hiss =>
    intro h
    exact ⟨iss, (RepoError.validationErr.inj (Except.error.inj h)).symm⟩

theorem validationMessage_form (r : String) (issues : List ZodIssue) :
    validationMessage r issues =
      "API response validation failed for " ++ r ++ ": " ++
        String.intercalate "; "
          (issues.map fun i => String.intercalate "." i.path ++ ": " ++ i.message) := rfl

theorem getManyTask_validationErr_form :
    ∀ (repo : Repo) (transport : Transport) (fetchOptions : Option ReqOptions)
      (id : EntityId) (m : String),
      getManyTask repo transport fetchOptions id = .error (.validationErr m) →
      ∃ issues2, m = validationMessage repo.resource issues2 := by
  intro repo transport fetchOptions id m h
  unfold getManyTask at h
  cases htr : transport (getOneUrl repo id) fetchOptions with
  | error e =>
    rw [htr, runOp_transport_error] at h
    injection h with h2
    injection h2
  | ok raw =>
    rw [htr, runOp_transport_ok] at h
    exact validateResponse_validationErr h

theorem firstScheduledError_mem :
    ∀ (tasks : List (Except RepoError Json)) (schedule : List Nat) (e : RepoError),
      firstScheduledError tasks schedule = some e →
      ∃ i, tasks.get? i = some (.error e)
  | _, [], _, h => by simp [firstScheduledError] at h
  | tasks, i :: tl, e, h => by
    unfold firstScheduledError at h
    cases ht : tasks.get? i with
    | none => rw [ht] at h; exact firstScheduledError_mem tasks tl e h
    | some t =>
      cases t with
      | ok v => rw [ht] at h; exact firstScheduledError_mem tasks tl e h
      | error e0 =>
        rw [ht] at h
        exact ⟨i, by rw [ht, Option.some.inj h]⟩

theorem seqExcept_error_mem :
    ∀ (tasks : List (Except RepoError Json)) (e : RepoError),
      seqExcept tasks = .error e → ∃ t ∈ tasks, t = .error e
  | [], e, h => by simp [seqExcept] at h
  | .ok v :: tl, e, h => by
    have htl : seqExcept tl = .error e := by
      cases hs : seqExcept tl with
      | ok vs =>
        rw [show seqExcept (.ok v :: tl) =
          (seqExcept tl).map (fun vs => v :: vs) from rfl, hs] at h
        simp [Except.map] at h
      | error e2 =>
        rw [show seqExcept (.ok v :: tl) =
          (seqExcept tl).map (fun vs => v :: vs) from rfl, hs] at h
        simpa [Except.map] using h
    obtain ⟨t, ht, hte⟩ := seqExcept_error_mem tl e htl
    exact ⟨t, List.mem_cons_of_mem _ ht, hte⟩
  | .error e0 :: tl, e, h => by
    refine ⟨.error e0, List.mem_cons_self _ _, ?_⟩
    rw [Except.error.inj (h : (Except.error e0 : Except RepoError (List Json)) = .error e)]

/-- C2: whenever the decoded response of a CRUD operation fails schema
validation, the operation raises the error whose message concatenates
the resource name and every reported path/message issue pair in the
documented "API response validation failed" format, and no operation
ever returns a value that did not come out of a successful schema
parse. -/
theorem crud_validation_failure_message :
    ∀ (repo : Repo) (transport : Transport) (fetchOptions : Option ReqOptions)
      (params : Option GetListParams) (id : EntityId) (vars : Json)
      (raw : Json) (issues : List ZodIssue),
      (transport (getOneUrl repo id) fetchOptions = .ok raw →
        zodParse (getOneSchema repo.dataSchema) raw = .error issues →
        getOne repo transport id fetchOptions =
          .error (.validationErr
            ("API response validation failed for " ++ repo.resource ++ ": " ++
              String.intercalate "; "
                (issues.map fun i => String.intercalate "." i.path ++ ": " ++ i.message)))) ∧
      (transport (getListUrl repo params) fetchOptions = .ok raw →
        zodParse (getListSchema repo.dataSchema) raw = .error issues →
        getList repo transport params fetchOptions =
          .error (.validationErr
            ("API response validation failed for " ++ repo.resource ++ ": " ++
              String.intercalate "; "
                (issues.map fun i => String.intercalate "." i.path ++ ": " ++ i.message)))) ∧
      (transport (Repo.resourceUrl repo)
          (some ⟨ "POST", true, some (jsonStringify vars)⟩) = .ok raw →
        zodParse (createSchema repo.dataSchema) raw = .error issues →
        create repo transport vars =
          .error (.validationErr
            ("API response validation failed for " ++ repo.resource ++ ": " ++
              String.intercalate "; "
                (issues.map fun i => String.intercalate "." i.path ++ ": " ++ i.message)))) ∧
      (transport (Repo.resourceUrl repo ++ "/" ++ idStr id)
          (some ⟨ "PATCH", true, some (jsonStringify vars)⟩) = .ok raw →
        zodParse (updateSchema repo.dataSchema) raw = .error issues →
        update repo transport id vars =
          .error (.validationErr
            ("API response validation failed for " ++ repo.resource ++ ": " ++
              String.intercalate "; "
                (issues.map fun i => String.intercalate "." i.path ++ ": " ++ i.message)))) ∧
      (transport (Repo.resourceUrl repo ++ "/" ++ idStr id)
          (some ⟨ "DELETE", true, none⟩) = .ok raw →
        zodParse (deleteOneSchema repo.dataSchema) raw = .error issues →
        deleteOne repo transport id =
          .error (.validationErr
            ("API response validation failed for " ++ repo.resource ++ ": " ++
              String.intercalate "; "
                (issues.map fun i => String.intercalate "." i.path ++ ": " ++ i.message)))) ∧
      (∀ v, getOne repo transport id fetchOptions = .ok v →
        ∃ raw2, transport (getOneUrl repo id) fetchOptions = .ok raw2 ∧
          zodParse (getOneSchema repo.dataSchema) raw2 = .ok v) ∧
      (∀ v, getList repo transport params fetchOptions = .ok v →
        ∃ raw2, transport (getListUrl repo params) fetchOptions = .ok raw2 ∧
          zodParse (getListSchema repo.dataSchema) raw2 = .ok v) ∧
      (∀ v, create repo transport vars = .ok v →
        ∃ raw2, transport (Repo.resourceUrl repo)
            (some ⟨ "POST", true, some (jsonStringify vars)⟩) = .ok raw2 ∧
          zodParse (createSchema repo.dataSchema) raw2 = .ok v) ∧
      (∀ v, update repo transport id vars = .ok v →
        ∃ raw2, transport (Repo.resourceUrl repo ++ "/" ++ idStr id)
            (some ⟨ "PATCH", true, some (jsonStringify vars)⟩) = .ok raw2 ∧
          zodParse (updateSchema repo.dataSchema) raw2 = .ok v) ∧
      (∀ v, deleteOne repo transport id = .ok v →
        ∃ raw2, transport (Repo.resourceUrl repo ++ "/" ++ idStr id)
            (some ⟨ "DELETE", true, none⟩) = .ok raw2 ∧
          zodParse (deleteOneSchema repo.dataSchema) raw2 = .ok v) ∧
      (∀ (ids : List EntityId) (schedule : List Nat) (m : String),
        getMany repo transport ids fetchOptions schedule = .error (.validationErr m) →
        ∃ issues2, m = validationMessage repo.resource issues2) ∧
      (∀ (ids : List EntityId) (schedule : List Nat) (v : Json),
        getMany repo transport ids fetchOptions schedule = .ok v →
        ∃ fr, zodParse (getManySchema repo.dataSchema) fr = .ok v) := by
  intro repo transport fetchOptions params id vars raw issues
  refine ⟨?_, ?_, ?_, ?_, ?_, ?_, ?_, ?_, ?_, ?_, ?_, ?_⟩
  case refine_1 =>
    intro ht hz
    unfold getOne
    rw [ht, runOp_transport_ok, validateResponse_of_zod_error hz, validationMessage_form]
  case refine_2 =>
    intro ht hz
    unfold getList
    rw [ht, runOp_transport_ok, validateResponse_of_zod_error hz, validationMessage_form]
  case refine_3 =>
    intro ht hz
    unfold create
    rw [ht, runOp_transport_ok, validateResponse_of_zod_error hz, validationMessage_form]
  case refine_4 =>
    intro ht hz
    unfold update
    rw [ht, runOp_transport_ok, validateResponse_of_zod_error hz, validationMessage_form]
  case refine_5 =>
    intro ht hz
    unfold deleteOne
    rw [ht, runOp_transport_ok, validateResponse_of_zod_error hz, validationMessage_form]
  case refine_6 =>
    intro v hv
    unfold getOne at hv
    cases htr : transport (getOneUrl repo id) fetchOptions with
    | error e =>
      rw [htr, runOp_transport_error] at hv
      exact Except.noConfusion hv
    | ok raw2 =>
      rw [htr, runOp_transport_ok] at hv
      exact ⟨raw2, rfl, validateResponse_eq_ok.mp hv⟩
  case refine_7 =>
    intro v hv
    unfold getList at hv
    cases htr : transport (getListUrl repo params) fetchOptions with
    | error e =>
      rw [htr, runOp_transport_error] at hv
      exact Except.noConfusion hv
    | ok raw2 =>
      rw [htr, runOp_transport_ok] at hv
      exact ⟨raw2, rfl, validateResponse_eq_ok.mp hv⟩
  case refine_8 =>
    intro v hv
    unfold create at hv
    cases htr : transport (Repo.resourceUrl repo)
        (some ⟨ "POST", true, some (jsonStringify vars)⟩) with
    | error e =>
      rw [htr, runOp_transport_error] at hv
      exact Except.noConfusion hv
    | ok raw2 =>
      rw [htr, runOp_transport_ok] at hv
      exact ⟨raw2, rfl, validateResponse_eq_ok.mp hv⟩
  case refine_9 =>
    intro v hv
    unfold update at hv
    cases htr : transport (Repo.resourceUrl repo ++ "/" ++ idStr id)
        (some ⟨ "PATCH", true, some (jsonStringify vars)⟩) with
    | error e =>
      rw [htr, runOp_transport_error] at hv
      exact Except.noConfusion hv
    | ok raw2 =>
      rw [htr, runOp_transport_ok] at hv
      exact ⟨raw2, rfl, validateResponse_eq_ok.mp hv⟩
  case refine_10 =>
    intro v hv
    unfold deleteOne at hv
    cases htr : transport (Repo.resourceUrl repo ++ "/" ++ idStr id)
        (some ⟨ "DELETE", true, none⟩) with
    | error e =>
      rw [htr, runOp_transport_error] at hv
      exact Except.noConfusion hv
    | ok raw2 =>
      rw [htr, runOp_transport_ok] at hv
      exact ⟨raw2, rfl, validateResponse_eq_ok.mp hv⟩
  case refine_11 =>
    intro ids schedule m hm
    unfold getMany at hm
    split at hm
    next e heq =>
      have he : e = .validationErr m := Except.error.inj hm
      subst he
      unfold promiseAll at heq
      split at heq
      next e0 hf =>
        rw [Except.error.inj heq] at hf
        obtain ⟨i, hi⟩ := firstScheduledError_mem _ _ _ hf
        have hmem : (Except.error (RepoError.validationErr m) : Except RepoError Json) ∈
            ids.map (getManyTask repo transport fetchOptions) := List.get?_mem hi
        obtain ⟨id2, _, hid2⟩ := List.mem_map.mp hmem
        exact getManyTask_validationErr_form repo transport fetchOptions id2 m hid2
      next hf =>
        obtain ⟨t, htm, hte⟩ := seqExcept_error_mem _ _ heq
        obtain ⟨id2, _, hid2⟩ := List.mem_map.mp htm
        rw [hte] at hid2
        exact getManyTask_validationErr_form repo transport fetchOptions id2 m hid2
    next responses heq =>
      exact validateResponse_validationErr hm
  case refine_12 =>
    intro ids schedule v hv
    unfold getMany at hv
    split at hv
    next e heq => exact Except.noConfusion hv
    next responses heq => exact ⟨_, validateResponse_eq_ok.mp hv⟩

theorem crud_validation_failure_message_witness :
    getOne testRepo mockMissingName (.str "1") none =
      .error (.validationErr
        "API response validation failed for tests: data.name: Required") :=
  (crud_validation_failure_message testRepo mockMissingName none none (.str "1")
    Json.null (.obj (.cons "data" (.obj (.cons "id" (.str "1") .nil)) .nil))
    [⟨[ "data", "name"], "Required"⟩]).1 rfl rfl

/-- C6 counterexample: a getList query whose pagination sub-field is
omitted but which carries a sorter dispatches the defaults AND the sort
parameter, so its query string is not "current=1&pageSize=10". -/
theorem getList_default_query_counterexample :
    getListQueryString (some ⟨none, some [⟨ "name", .asc⟩], none⟩) =
      "current=1&pageSize=10&sort=%5B%5B%22name%22%2C%22asc%22%5D%5D" ∧
    getListQueryString (some ⟨none, some [⟨ "name", .asc⟩], none⟩) ≠
      "current=1&pageSize=10" := by
  constructor
  · rfl
  · decide

/-- C6 amended: calling getList with no query argument, or with a query
whose pagination sub-field is omitted and which specifies no sorters
and no filters, dispatches the query string current=1&pageSize=10. -/
theorem getList_default_query_amended :
    ∀ p : GetListParams,
      p.pagination = none →
      (p.sorters = none ∨ p.sorters = some []) →
      (p.filters = none ∨ p.filters = some []) →
      getListQueryString (some p) = "current=1&pageSize=10" ∧
      getListQueryString none = "current=1&pageSize=10" := by
  intro p hpag hs hf
  obtain ⟨pag, so, fi⟩ := p
  cases hpag
  refine ⟨?_, rfl⟩
  rcases hs with hs | hs <;> cases hs <;> rcases hf with hf | hf <;> cases hf <;> rfl

theorem getList_default_query_amended_witness :
    getListQueryString (some ⟨none, none, none⟩) = "current=1&pageSize=10" ∧
    getListQueryString none = "current=1&pageSize=10" :=
  getList_default_query_amended ⟨none, none, none⟩ rfl (Or.inl rfl) (Or.inl rfl)

/-- C8: for every successful (2xx) response, request resolves to the
empty result when the status is 204 or 205, likewise when the body text
is empty regardless of the declared content type; otherwise it parses
the body as JSON when the content type declares application/json (a
parse failure raises) and returns the raw body text unchanged when it
does not. -/
theorem request_success_body_handling :
    ∀ (handleError : HttpResponse → Bool → String) (res : HttpResponse)
      (url : String) (callerHeaders authHeaders : List (String × String))
      (isRetry : Bool),
      responseOk res = true →
      (request handleError (fun _ _ => .ok res) url callerHeaders authHeaders isRetry =
        handleSuccessBody res ∧
      (res.status = 204 ∨ res.status = 205 → handleSuccessBody res = .ok .empty) ∧
      (res.body = "" → handleSuccessBody res = .ok .empty) ∧
      (res.status ≠ 204 → res.status ≠ 205 → res.body ≠ "" →
        includesStr "application/json" (contentTypeOf res) = true →
        handleSuccessBody res =
          (match jsonParseString res.body with
           | some j => .ok (.json j)
           | none => .error .invalidJson)) ∧
      (res.status ≠ 204 → res.status ≠ 205 → res.body ≠ "" →
        includesStr "application/json" (contentTypeOf res) = false →
        handleSuccessBody res = .ok (.text res.body))) := by
  intro handleError res url callerHeaders authHeaders isRetry hok
  refine ⟨?_, ?_, ?_, ?_, ?_⟩
  · unfold request
    show (if responseOk res = true then handleSuccessBody res
      else Except.error (.handled (handleError res isRetry))) = handleSuccessBody res
    rw [hok]
    rfl
  · intro h
    unfold handleSuccessBody
    have h24 : (res.status == 204 || res.status == 205) = true := by
      rcases h with h | h <;> simp [h]
    rw [h24]
    rfl
  · intro h
    unfold handleSuccessBody
    cases h24 : (res.status == 204 || res.status == 205)
    · rw [h]
      rfl
    · rfl
  · intro h204 h205 hbody hct
    unfold handleSuccessBody
    have h24 : (res.status == 204 || res.status == 205) = false := by
      simp [h204, h205]
    have hb : (res.body == "") = false := beq_eq_false_iff_ne.mpr hbody
    rw [h24, hb, hct]
    rfl
  · intro h204 h205 hbody hct
    unfold handleSuccessBody
    have h24 : (res.status == 204 || res.status == 205) = false := by
      simp [h204, h205]
    have hb : (res.body == "") = false := beq_eq_false_iff_ne.mpr hbody
    rw [h24, hb, hct]
    rfl

theorem request_success_body_handling_witness :
    request (fun _ _ => "handled") (fun _ _ =>
        .ok ⟨200, [("content-type", "application/json")], "[\"a\",-12]"⟩)
      "http://api.test/api/v2/things" [] [] false =
      handleSuccessBody ⟨200, [("content-type", "application/json")], "[\"a\",-12]"⟩ ∧
    handleSuccessBody ⟨204, [], ""⟩ = .ok .empty ∧
    handleSuccessBody ⟨200, [("content-type", "application/json")], ""⟩ = .ok .empty ∧
    handleSuccessBody ⟨200, [("content-type", "application/json")], "[\"a\",-12]"⟩ =
      .ok (.json (.arr (.cons (.str "a") (.cons (.num (-12)) .nil)))) ∧
    handleSuccessBody ⟨200, [("content-type", "text/plain")], "hello"⟩ =
      .ok (.text "hello") := by
  have h := request_success_body_handling (fun _ _ => "handled")
    ⟨200, [("content-type", "application/json")], "[\"a\",-12]"⟩
    "http://api.test/api/v2/things" [] [] false (by decide)
  have h2 := request_success_body_handling (fun _ _ => "handled")
    (⟨204, [], ""⟩ : HttpResponse) "u" [] [] false (by decide)
  have h3 := request_success_body_handling (fun _ _ => "handled")
    (⟨200, [("content-type", "application/json")], ""⟩ : HttpResponse) "u" [] [] false
    (by decide)
  have h5 := request_success_body_handling (fun _ _ => "handled")
    (⟨200, [("content-type", "text/plain")], "hello"⟩ : HttpResponse) "u" [] [] false
    (by decide)
  refine ⟨h.1, h2.2.1 (Or.inl rfl), h3.2.2.1 rfl, ?_, ?_⟩
  · have := h.2.2.2.1 (by decide) (by decide) (by decide) (by decide)
    rw [this]
    rfl
  · exact h5.2.2.2.2 (by decide) (by decide) (by decide) (by decide)


/-! ## Decimal serialization lemmas (C5) -/

theorem digitChar_isDigit : ∀ d < 10, (digitChar d).isDigit = true := by decide

theorem digitVal_digitChar : ∀ d < 10, digitVal (digitChar d) = d := by decide

theorem digitChar_ascii : ∀ d < 10, (digitChar d).toNat < 128 := by decide

theorem natCharsAux_fuel_irrel :
    ∀ f g n, n < f → n < g → natCharsAux f n = natCharsAux g n
  | f + 1, g + 1, n, hf, hg => by
    unfold natCharsAux
    by_cases h : n < 10
    · simp [h]
    · have hd : n / 10 < n := Nat.div_lt_self (by omega) (by omega)
      simp only [h, if_false]
      rw [natCharsAux_fuel_irrel f g (n / 10) (by omega) (by omega)]
  | 0, _, n, hf, _ => absurd hf (Nat.not_lt_zero n)
  | _ + 1, 0, n, _, hg => absurd hg (Nat.not_lt_zero n)

theorem natCharsAux_digits :
    ∀ f n, n < f → ∀ c ∈ natCharsAux f n, c.isDigit = true
  | f + 1, n, hf, c, hc => by
    unfold natCharsAux at hc
    by_cases h : n < 10
    · simp only [h, if_true, List.mem_singleton] at hc
      rw [hc]
      exact digitChar_isDigit n h
    · have hd : n / 10 < n := Nat.div_lt_self (by omega) (by omega)
      simp only [h, if_false, List.mem_append, List.mem_singleton] at hc
      rcases hc with hc | hc
      · exact natCharsAux_digits f (n / 10) (by omega) c hc
      · rw [hc]
        exact digitChar_isDigit (n % 10) (Nat.mod_lt n (by omega))
  | 0, n, hf, c, hc => absurd hf (Nat.not_lt_zero n)

theorem natCharsAux_ascii :
    ∀ f n, n < f → ∀ c ∈ natCharsAux f n, c.toNat < 128
  | f + 1, n, hf, c, hc => by
    unfold natCharsAux at hc
    by_cases h : n < 10
    · simp only [h, if_true, List.mem_singleton] at hc
      rw [hc]
      exact digitChar_ascii n h
    · have hd : n / 10 < n := Nat.div_lt_self (by omega) (by omega)
      simp only [h, if_false, List.mem_append, List.mem_singleton] at hc
      rcases hc with hc | hc
      · exact natCharsAux_ascii f (n / 10) (by omega) c hc
      · rw [hc]
        exact digitChar_ascii (n % 10) (Nat.mod_lt n (by omega))
  | 0, n, hf, c, hc => absurd hf (Nat.not_lt_zero n)

theorem natCharsAux_ne_nil :
    ∀ f n, n < f → natCharsAux f n ≠ []
  | f + 1, n, hf => by
    unfold natCharsAux
    by_cases h : n < 10
    · simp [h]
    · simp [h]
  | 0, n, hf => absurd hf (Nat.not_lt_zero n)

theorem valOfDigits_append (xs : List Char) (c : Char) :
    valOfDigits (xs ++ [c]) = 10 * valOfDigits xs + digitVal c := by
  simp [valOfDigits, List.foldl_append]

theorem valOfDigits_natCharsAux :
    ∀ f n, n < f → valOfDigits (natCharsAux f n) = n
  | f + 1, n, hf => by
    unfold natCharsAux
    by_cases h : n < 10
    · simp only [h, if_true]
      show 10 * 0 + digitVal (digitChar n) = n
      rw [digitVal_digitChar n h]
      omega
    · have hd : n / 10 < n := Nat.div_lt_self (by omega) (by omega)
      simp only [h, if_false]
      rw [valOfDigits_append, valOfDigits_natCharsAux f (n / 10) (by omega),
        digitVal_digitChar (n % 10) (Nat.mod_lt n (by omega))]
      omega
  | 0, n, hf => absurd hf (Nat.not_lt_zero n)

theorem takeDigits_exact :
    ∀ (ds rest : List Char), (∀ c ∈ ds, c.isDigit = true) → delimOkB rest = true →
      takeDigits (ds ++ rest) = (ds, rest)
  | [], [], _, _ => rfl
  | [], c :: tl, _, hrest => by
    simp only [delimOkB, Bool.not_eq_true'] at hrest
    simp [takeDigits, hrest]
  | d :: ds, rest, hds, hrest => by
    have hd := hds d (List.mem_cons_self d ds)
    simp only [List.cons_append, takeDigits, hd, if_true, List.append_eq]
    rw [takeDigits_exact ds rest (fun c hc => hds c (List.mem_cons_of_mem d hc)) hrest]

theorem parseNatNum_natChars (n : Nat) (rest : List Char)
    (hrest : delimOkB rest = true) :
    parseNatNum (natChars n ++ rest) = some (n, rest) := by
  unfold parseNatNum
  rw [takeDigits_exact (natChars n) rest
    (fun c hc => natCharsAux_digits (n + 1) n (Nat.lt_succ_self n) c hc) hrest]
  obtain ⟨c, cs, hnc⟩ := List.exists_cons_of_ne_nil
    (natCharsAux_ne_nil (n + 1) n (Nat.lt_succ_self n))
  rw [show natChars n = c :: cs from hnc]
  show some (valOfDigits (c :: cs), rest) = some (n, rest)
  rw [← hnc]
  show some (valOfDigits (natCharsAux (n + 1) n), rest) = some (n, rest)
  rw [valOfDigits_natCharsAux (n + 1) n (Nat.lt_succ_self n)]

/-! ## String body and parser head lemmas (C5) -/

theorem parseStringBody_quote (rest : List Char) :
    parseStringBody ('"' :: rest) = some ([], rest) := by
  conv_lhs => unfold parseStringBody
  rfl

theorem parseStringBody_backslash (e : Char) (rest : List Char) :
    parseStringBody ('\\' :: e :: rest) =
      (unescapeChar e).bind fun u =>
        (parseStringBody rest).map fun sr => (u :: sr.1, sr.2) := by
  conv_lhs => unfold parseStringBody
  rfl

theorem parseStringBody_other (c : Char) (rest : List Char)
    (h1 : (c == '"') = false) (h2 : (c == '\\') = false) :
    parseStringBody (c :: rest) =
      (parseStringBody rest).map fun sr => (c :: sr.1, sr.2) := by
  conv_lhs => unfold parseStringBody
  rw [h1, h2]
  simp only [Bool.false_eq_true, if_false]

theorem parseStringBody_escape :
    ∀ (cs rest : List Char),
      parseStringBody (escapeChars cs ++ '"' :: rest) = some (cs, rest)
  | [], rest => by
    show parseStringBody ('"' :: rest) = _
    exact parseStringBody_quote rest
  | c :: tl, rest => by
    show parseStringBody (escapeChar c ++ escapeChars tl ++ '"' :: rest) = _
    by_cases h1 : c == '"'
    · rw [show escapeChar c = [ '\\', '"' ] from by simp [escapeChar, h1]]
      show parseStringBody ('\\' :: '"' :: (escapeChars tl ++ '"' :: rest)) = _
      rw [parseStringBody_backslash, parseStringBody_escape tl rest]
      rw [eq_of_beq h1]
      rfl
    · by_cases h2 : c == '\\'
      · rw [show escapeChar c = [ '\\', '\\' ] from by simp [escapeChar, h1, h2]]
        show parseStringBody ('\\' :: '\\' :: (escapeChars tl ++ '"' :: rest)) = _
        rw [parseStringBody_backslash, parseStringBody_escape tl rest]
        rw [eq_of_beq h2]
        rfl
      · have hb1 : (c == '"') = false := by simpa using h1
        have hb2 : (c == '\\') = false := by simpa using h2
        rw [show escapeChar c = [c] from by simp [escapeChar, hb1, hb2]]
        show parseStringBody (c :: (escapeChars tl ++ '"' :: rest)) = _
        rw [parseStringBody_other c _ hb1 hb2, parseStringBody_escape tl rest]
        rfl

theorem parseVal_cons (f : Nat) (c : Char) (X : List Char) :
    parseVal (f + 1) (c :: X) =
      (if c.isDigit then (parseNatNum (c :: X)).map fun nr => (.num (nr.1 : Int), nr.2)
      else if c == '-' then (parseNatNum X).map fun nr => (.num (-(nr.1 : Int)), nr.2)
      else if c == '"' then
        (parseStringBody X).map fun sr => (.str (String.mk sr.1), sr.2)
      else if c == '[' then
        (parseItems (parseVal f) f X).map fun er => (.arr er.1, er.2)
      else if c == '{' then
        (parseFieldItems (parseVal f) f X).map fun fr => (.obj fr.1, fr.2)
      else if c == 'n' then
        match X with
        | 'u' :: 'l' :: 'l' :: r => some (.null, r)
        | _ => none
      else if c == 't' then
        match X with
        | 'r' :: 'u' :: 'e' :: r => some (.bool true, r)
        | _ => none
      else if c == 'f' then
        match X with
        | 'a' :: 'l' :: 's' :: 'e' :: r => some (.bool false, r)
        | _ => none
      else none) := by
  conv_lhs => unfold parseVal

theorem parseVal_digit (f : Nat) (c : Char) (X : List Char) (hc : c.isDigit = true) :
    parseVal (f + 1) (c :: X) =
      (parseNatNum (c :: X)).map fun nr => (.num (nr.1 : Int), nr.2) := by
  rw [parseVal_cons, hc]
  simp

theorem parseVal_neg (f : Nat) (X : List Char) :
    parseVal (f + 1) ('-' :: X) =
      (parseNatNum X).map fun nr => (.num (-(nr.1 : Int)), nr.2) := by
  conv_lhs => unfold parseVal
  rfl

theorem parseVal_quote (f : Nat) (X : List Char) :
    parseVal (f + 1) ('"' :: X) =
      (parseStringBody X).map fun sr => (.str (String.mk sr.1), sr.2) := by
  conv_lhs => unfold parseVal
  rfl

theorem parseVal_lbracket (f : Nat) (X : List Char) :
    parseVal (f + 1) ('[' :: X) =
      (parseItems (parseVal f) f X).map fun er => (.arr er.1, er.2) := by
  conv_lhs => unfold parseVal
  rfl

theorem parseVal_lbrace (f : Nat) (X : List Char) :
    parseVal (f + 1) ('{' :: X) =
      (parseFieldItems (parseVal f) f X).map fun fr => (.obj fr.1, fr.2) := by
  conv_lhs => unfold parseVal
  rfl

theorem parseVal_null (f : Nat) (rest : List Char) :
    parseVal (f + 1) ('n' :: 'u' :: 'l' :: 'l' :: rest) = some (.null, rest) := by
  conv_lhs => unfold parseVal
  rfl

theorem parseVal_true (f : Nat) (rest : List Char) :
    parseVal (f + 1) ('t' :: 'r' :: 'u' :: 'e' :: rest) = some (.bool true, rest) := by
  conv_lhs => unfold parseVal
  rfl

theorem parseVal_false (f : Nat) (rest : List Char) :
    parseVal (f + 1) ('f' :: 'a' :: 'l' :: 's' :: 'e' :: rest) =
      some (.bool false, rest) := by
  conv_lhs => unfold parseVal
  rfl

theorem parseItems_rbracket (p : List Char → Option (Json × List Char)) (f : Nat)
    (rest : List Char) :
    parseItems p (f + 1) (']' :: rest) = some (.nil, rest) := by
  conv_lhs => unfold parseItems
  rfl

theorem parseItems_cons (p : List Char → Option (Json × List Char)) (f : Nat)
    (c : Char) (X : List Char) (hc : (c == ']') = false) :
    parseItems p (f + 1) (c :: X) =
      (p (c :: X)).bind fun jr =>
        match jr.2 with
        | [] => none
        | c2 :: r2 =>
          if c2 == ',' then
            (parseItems p f r2).map fun er => (.cons jr.1 er.1, er.2)
          else if c2 == ']' then some (.cons jr.1 .nil, r2)
          else none := by
  have heq : parseItems p (f + 1) (c :: X) =
      (if c == ']' then some (.nil, X)
      else (p (c :: X)).bind fun jr =>
        match jr.2 with
        | [] => none
        | c2 :: r2 =>
          if c2 == ',' then
            (parseItems p f r2).map fun er => (.cons jr.1 er.1, er.2)
          else if c2 == ']' then some (.cons jr.1 .nil, r2)
          else none) := by
    conv_lhs => unfold parseItems
  rw [heq, hc]
  simp

theorem parseFieldItems_rbrace (p : List Char → Option (Json × List Char)) (f : Nat)
    (rest : List Char) :
    parseFieldItems p (f + 1) ('}' :: rest) = some (.nil, rest) := by
  conv_lhs => unfold parseFieldItems
  rfl

theorem parseFieldItems_quote (p : List Char → Option (Json × List Char)) (f : Nat)
    (X : List Char) :
    parseFieldItems p (f + 1) ('"' :: X) =
      (parseStringBody X).bind fun kr =>
        match kr.2 with
        | ':' :: r2 =>
          (p r2).bind fun vr =>
            match vr.2 with
            | [] => none
            | c2 :: r3 =>
              if c2 == ',' then
                (parseFieldItems p f r3).map fun fr =>
                  (.cons (String.mk kr.1) vr.1 fr.1, fr.2)
              else if c2 == '}' then
                some (.cons (String.mk kr.1) vr.1 .nil, r3)
              else none
        | _ => none := by
  conv_lhs => unfold parseFieldItems
  rfl

theorem isDigit_ne_rbracket (c : Char) (hc : c.isDigit = true) : (c == ']') = false := by
  cases h : c == ']'
  · rfl
  · rw [eq_of_beq h] at hc
    exact absurd hc (by decide)

theorem strJson_head :
    ∀ j : Json, ∃ c cs, strJson j = c :: cs ∧ (c == ']') = false := by
  intro j
  cases j with
  | null => exact ⟨ 'n', _, rfl, by decide⟩
  | bool b =>
    cases b
    · exact ⟨ 'f', _, rfl, by decide⟩
    · exact ⟨ 't', _, rfl, by decide⟩
  | num n =>
    show ∃ c cs, intChars n = c :: cs ∧ _
    unfold intChars
    by_cases hn : n < 0
    · rw [if_pos hn]
      exact ⟨ '-', _, rfl, by decide⟩
    · rw [if_neg hn]
      cases hnc : natChars n.natAbs with
      | nil => exact absurd hnc (natCharsAux_ne_nil _ _ (Nat.lt_succ_self _))
      | cons c cs =>
        refine ⟨c, cs, rfl, isDigit_ne_rbracket c ?_⟩
        exact natCharsAux_digits _ _ (Nat.lt_succ_self _) c
          (hnc ▸ List.mem_cons_self c cs)
  | str s => exact ⟨ '"', _, rfl, by decide⟩
  | arr es => exact ⟨ '[', _, rfl, by decide⟩
  | obj fs => exact ⟨ '{', _, rfl, by decide⟩

theorem jsonFuel_pos : ∀ j : Json, 1 ≤ jsonFuel j := by
  intro j
  cases j <;> simp [jsonFuel]

theorem jsonFuelList_pos : ∀ es : JsonList, 1 ≤ jsonFuelList es := by
  intro es
  cases es <;> simp [jsonFuelList]

theorem jsonFuelFields_pos : ∀ fs : JsonFields, 1 ≤ jsonFuelFields fs := by
  intro fs
  cases fs <;> simp [jsonFuelFields]

mutual

theorem parseVal_strJson :
    ∀ (j : Json) (fuel : Nat) (rest : List Char),
      jsonFuel j ≤ fuel → delimOkB rest = true →
      parseVal fuel (strJson j ++ rest) = some (j, rest)
  | j, 0, _, hfu, _ => absurd hfu (by have := jsonFuel_pos j; omega)
  | .null, f + 1, rest, _, _ => parseVal_null f rest
  | .bool true, f + 1, rest, _, _ => parseVal_true f rest
  | .bool false, f + 1, rest, _, _ => parseVal_false f rest
  | .num n, f + 1, rest, _, hrest => by
    show parseVal (f + 1) (intChars n ++ rest) = _
    unfold intChars
    by_cases hn : n < 0
    · rw [if_pos hn]
      show parseVal (f + 1) ('-' :: (natChars n.natAbs ++ rest)) = _
      rw [parseVal_neg, parseNatNum_natChars n.natAbs rest hrest]
      show some (Json.num (-(n.natAbs : Int)), rest) = some (Json.num n, rest)
      rw [show -((n.natAbs : Int)) = n by omega]
    · rw [if_neg hn]
      cases hnc : natChars n.natAbs with
      | nil => exact absurd hnc (natCharsAux_ne_nil _ _ (Nat.lt_succ_self _))
      | cons c cs =>
        have hcd : c.isDigit = true :=
          natCharsAux_digits _ _ (Nat.lt_succ_self _) c
            (hnc ▸ List.mem_cons_self c cs)
        rw [List.cons_append, parseVal_digit f c (cs ++ rest) hcd,
          ← List.cons_append, ← hnc, parseNatNum_natChars n.natAbs rest hrest]
        show some (Json.num ((n.natAbs : Int)), rest) = some (Json.num n, rest)
        rw [show ((n.natAbs : Int)) = n by omega]
  | .str s, f + 1, rest, _, _ => by
    rw [show strJson (.str s) ++ rest = '"' :: (escapeChars s.data ++ '"' :: rest) from
      by simp [strJson]]
    rw [parseVal_quote, parseStringBody_escape s.data rest]
    rfl
  | .arr es, f + 1, rest, hfu, _ => by
    rw [show strJson (.arr es) ++ rest = '[' :: (strList es ++ ']' :: rest) from
      by simp [strJson]]
    rw [parseVal_lbracket]
    rw [parseItems_strList es f f rest
      (by simp [jsonFuel] at hfu; omega) (by simp [jsonFuel] at hfu; omega)]
    rfl
  | .obj fs, f + 1, rest, hfu, _ => by
    rw [show strJson (.obj fs) ++ rest = '{' :: (strFields fs ++ '}' :: rest) from
      by simp [strJson]]
    rw [parseVal_lbrace]
    rw [parseFieldItems_strFields fs f f rest
      (by simp [jsonFuel] at hfu; omega) (by simp [jsonFuel] at hfu; omega)]
    rfl

theorem parseItems_strList :
    ∀ (es : JsonList) (fp fi : Nat) (rest : List Char),
      jsonFuelList es ≤ fp → jsonFuelList es ≤ fi →
      parseItems (parseVal fp) fi (strList es ++ ']' :: rest) = some (es, rest)
  | es, _, 0, _, _, hfi => absurd hfi (by have := jsonFuelList_pos es; omega)
  | .nil, fp, fi + 1, rest, _, _ => parseItems_rbracket _ fi rest
  | .cons x .nil, fp, fi + 1, rest, hfp, hfi => by
    rw [show strList (.cons x .nil) ++ ']' :: rest = strJson x ++ ']' :: rest from
      by simp [strList]]
    obtain ⟨c, cs, hcc, hne⟩ := strJson_head x
    rw [hcc, List.cons_append, parseItems_cons _ fi c _ hne, ← List.cons_append, ← hcc]
    rw [parseVal_strJson x fp (']' :: rest)
      (by simp [jsonFuelList] at hfp; omega) rfl]
    rfl
  | .cons x (.cons y tl), fp, fi + 1, rest, hfp, hfi => by
    rw [show strList (.cons x (.cons y tl)) ++ ']' :: rest =
        strJson x ++ ',' :: (strList (.cons y tl) ++ ']' :: rest) from
      by simp [strList]]
    obtain ⟨c, cs, hcc, hne⟩ := strJson_head x
    rw [hcc, List.cons_append, parseItems_cons _ fi c _ hne, ← List.cons_append, ← hcc]
    rw [parseVal_strJson x fp (',' :: (strList (.cons y tl) ++ ']' :: rest))
      (by simp [jsonFuelList] at hfp; omega) rfl]
    show (parseItems (parseVal fp) fi (strList (.cons y tl) ++ ']' :: rest)).map
      (fun er => (JsonList.cons x er.1, er.2)) = _
    rw [parseItems_strList (.cons y tl) fp fi rest
      (by simp [jsonFuelList] at hfp ⊢; omega) (by simp [jsonFuelList] at hfi ⊢; omega)]
    rfl

theorem parseFieldItems_strFields :
    ∀ (fs : JsonFields) (fp fi : Nat) (rest : List Char),
      jsonFuelFields fs ≤ fp → jsonFuelFields fs ≤ fi →
      parseFieldItems (parseVal fp) fi (strFields fs ++ '}' :: rest) = some (fs, rest)
  | fs, _, 0, _, _, hfi => absurd hfi (by have := jsonFuelFields_pos fs; omega)
  | .nil, fp, fi + 1, rest, _, _ => parseFieldItems_rbrace _ fi rest
  | .cons k v .nil, fp, fi + 1, rest, hfp, hfi => by
    rw [show strFields (.cons k v .nil) ++ '}' :: rest =
        '"' :: (escapeChars k.data ++ '"' :: (':' :: (strJson v ++ '}' :: rest))) from
      by simp [strFields]]
    rw [parseFieldItems_quote, parseStringBody_escape k.data]
    show (parseVal fp (strJson v ++ '}' :: rest)).bind (fun vr =>
        match vr.2 with
        | [] => none
        | c2 :: r3 =>
          if c2 == ',' then
            (parseFieldItems (parseVal fp) fi r3).map fun fr =>
              (JsonFields.cons (String.mk k.data) vr.1 fr.1, fr.2)
          else if c2 == '}' then
            some (JsonFields.cons (String.mk k.data) vr.1 JsonFields.nil, r3)
          else none) = some (JsonFields.cons k v JsonFields.nil, rest)
    rw [parseVal_strJson v fp ('}' :: rest)
      (by simp [jsonFuelFields] at hfp; omega) rfl]
    rfl
  | .cons k v (.cons k2 v2 tl), fp, fi + 1, rest, hfp, hfi => by
    rw [show strFields (.cons k v (.cons k2 v2 tl)) ++ '}' :: rest =
        '"' :: (escapeChars k.data ++ '"' ::
          (':' :: (strJson v ++ ',' :: (strFields (.cons k2 v2 tl) ++ '}' :: rest)))) from
      by simp [strFields]]
    rw [parseFieldItems_quote, parseStringBody_escape k.data]
    show (parseVal fp (strJson v ++
        ',' :: (strFields (.cons k2 v2 tl) ++ '}' :: rest))).bind (fun vr =>
        match vr.2 with
        | [] => none
        | c2 :: r3 =>
          if c2 == ',' then
            (parseFieldItems (parseVal fp) fi r3).map fun fr =>
              (JsonFields.cons (String.mk k.data) vr.1 fr.1, fr.2)
          else if c2 == '}' then
            some (JsonFields.cons (String.mk k.data) vr.1 JsonFields.nil, r3)
          else none) =
      some (JsonFields.cons k v (JsonFields.cons k2 v2 tl), rest)
    rw [parseVal_strJson v fp (',' :: (strFields (.cons k2 v2 tl) ++ '}' :: rest))
      (by simp [jsonFuelFields] at hfp; omega) rfl]
    show (parseFieldItems (parseVal fp) fi
        (strFields (.cons k2 v2 tl) ++ '}' :: rest)).map
        (fun fr => (JsonFields.cons (String.mk k.data) v fr.1, fr.2)) =
      some (JsonFields.cons k v (JsonFields.cons k2 v2 tl), rest)
    rw [parseFieldItems_strFields (.cons k2 v2 tl) fp fi rest
      (by simp [jsonFuelFields] at hfp ⊢; omega)
      (by simp [jsonFuelFields] at hfi ⊢; omega)]
    rfl

end

/-! ## Serializer output length bounds the parser fuel (C5) -/

theorem natChars_ne_nil (n : Nat) : natChars n ≠ [] :=
  natCharsAux_ne_nil (n + 1) n (Nat.lt_succ_self n)

theorem intChars_length_pos (i : Int) : 1 ≤ (intChars i).length := by
  unfold intChars
  by_cases h : i < 0
  · rw [if_pos h]
    simp
  · rw [if_neg h]
    exact List.length_pos.mpr (natChars_ne_nil i.natAbs)

mutual

theorem jsonFuel_le_length :
    ∀ j : Json, jsonFuel j ≤ (strJson j).length
  | .null => by decide
  | .bool true => by decide
  | .bool false => by decide
  | .num n => intChars_length_pos n
  | .str s => by
    show 1 ≤ (( '"' : Char) :: (escapeChars s.data ++ [ '"' ])).length
    simp
  | .arr es => by
    have h := jsonFuelList_le_length es
    show jsonFuelList es + 1 ≤ (( '[' : Char) :: (strList es ++ [ ']' ])).length
    simp only [List.length_cons, List.length_append, List.length_singleton]
    omega
  | .obj fs => by
    have h := jsonFuelFields_le_length fs
    show jsonFuelFields fs + 1 ≤ (( '{' : Char) :: (strFields fs ++ [ '}' ])).length
    simp only [List.length_cons, List.length_append, List.length_singleton]
    omega

theorem jsonFuelList_le_length :
    ∀ es : JsonList, jsonFuelList es ≤ (strList es).length + 1
  | .nil => Nat.le_refl 1
  | .cons x .nil => by
    have hx := jsonFuel_le_length x
    have hp := jsonFuel_pos x
    have h0 : jsonFuelList JsonList.nil = 1 := rfl
    show max (jsonFuel x) (jsonFuelList JsonList.nil) + 1 ≤ (strJson x).length + 1
    omega
  | .cons x (.cons y tl) => by
    have hx := jsonFuel_le_length x
    have ht := jsonFuelList_le_length (.cons y tl)
    show max (jsonFuel x) (jsonFuelList (.cons y tl)) + 1 ≤
      (strJson x ++ ',' :: strList (.cons y tl)).length + 1
    simp only [List.length_append, List.length_cons]
    omega

theorem jsonFuelFields_le_length :
    ∀ fs : JsonFields, jsonFuelFields fs ≤ (strFields fs).length + 1
  | .nil => Nat.le_refl 1
  | .cons k v .nil => by
    have hv := jsonFuel_le_length v
    have hp := jsonFuel_pos v
    have h0 : jsonFuelFields JsonFields.nil = 1 := rfl
    show max (jsonFuel v) (jsonFuelFields JsonFields.nil) + 1 ≤
      (( '"' : Char) :: (escapeChars k.data ++ '"' :: ':' :: strJson v)).length + 1
    simp only [List.length_cons, List.length_append]
    omega
  | .cons k v (.cons k2 v2 tl) => by
    have hv := jsonFuel_le_length v
    have ht := jsonFuelFields_le_length (.cons k2 v2 tl)
    simp only [jsonFuelFields, strFields, List.length_cons, List.length_append] at ht ⊢
    omega

end

/-- JSON.parse is a left inverse of JSON.stringify on the embedded
values: the canonical serialization always parses back to the exact
same value (in particular array element order survives the roundtrip). -/
theorem jsonParseString_stringify (j : Json) :
    jsonParseString (jsonStringify j) = some j := by
  have h := parseVal_strJson j ((strJson j).length + 1) []
    (le_trans (jsonFuel_le_length j) (Nat.le_succ _)) rfl
  rw [List.append_nil] at h
  unfold jsonParseString
  have hd : (jsonStringify j).data = strJson j := rfl
  have hl : (jsonStringify j).length = (strJson j).length := rfl
  rw [hd, hl, h]

/-! ## Form-encoding roundtrip (C5) -/

theorem hexVal_hexDigitChar : ∀ d < 16, hexVal (hexDigitChar d) = some d := by decide

theorem formDecodeChars_cons (c : Char) (rest : List Char) :
    formDecodeChars (c :: rest) =
      (if c == '%' then
        match rest with
        | h :: l :: rest2 =>
          (hexVal h).bind fun hv =>
            (hexVal l).bind fun lv =>
              (formDecodeChars rest2).map fun r => Char.ofNat (16 * hv + lv) :: r
        | _ => none
      else if c == '+' then (formDecodeChars rest).map fun r => ' ' :: r
      else (formDecodeChars rest).map fun r => c :: r) := by
  conv_lhs => unfold formDecodeChars

theorem not_mem_encodeChar (x c : Char) (hxs : formSafeChar x = false)
    (hxp : x ≠ '+') (hxpc : x ≠ '%')
    (hxh : ∀ d < 16, hexDigitChar d ≠ x) : x ∉ formEncodeChar c := by
  unfold formEncodeChar percentEncodeChar
  by_cases hs : formSafeChar c
  · rw [if_pos hs]
    intro hm
    rw [List.mem_singleton] at hm
    rw [hm] at hxs
    rw [hs] at hxs
    exact Bool.true_eq_false.mp hxs
  · rw [if_neg hs]
    by_cases hsp : c == ' '
    · rw [if_pos hsp]
      intro hm
      rw [List.mem_singleton] at hm
      exact hxp hm
    · rw [if_neg hsp]
      intro hm
      simp only [List.mem_cons, List.not_mem_nil, or_false] at hm
      rcases hm with h | h | h
      · exact hxpc h
      · exact hxh (c.toNat / 16 % 16) (by omega) h.symm
      · exact hxh (c.toNat % 16) (by omega) h.symm

theorem not_mem_encodeChars (x : Char) (hxs : formSafeChar x = false)
    (hxp : x ≠ '+') (hxpc : x ≠ '%') (hxh : ∀ d < 16, hexDigitChar d ≠ x) :
    ∀ cs : List Char, x ∉ formEncodeChars cs
  | [] => List.not_mem_nil x
  | c :: tl => by
    show x ∉ formEncodeChar c ++ formEncodeChars tl
    intro hm
    rcases List.mem_append.mp hm with hm | hm
    · exact not_mem_encodeChar x c hxs hxp hxpc hxh hm
    · exact not_mem_encodeChars x hxs hxp hxpc hxh tl hm

theorem amp_not_mem_encodeChars (cs : List Char) : '&' ∉ formEncodeChars cs :=
  not_mem_encodeChars '&' (by decide) (by decide) (by decide) (by decide) cs

theorem eqc_not_mem_encodeChars (cs : List Char) : '=' ∉ formEncodeChars cs :=
  not_mem_encodeChars '=' (by decide) (by decide) (by decide) (by decide) cs

theorem formDecode_encodeChar (c : Char) (rest : List Char) (hc : c.toNat < 128) :
    formDecodeChars (formEncodeChar c ++ rest) =
      (formDecodeChars rest).map fun r => c :: r := by
  unfold formEncodeChar
  by_cases hs : formSafeChar c
  · rw [if_pos hs]
    show formDecodeChars (c :: rest) = _
    rw [formDecodeChars_cons]
    have h1 : (c == '%') = false := by
      cases hcc : c == '%'
      · rfl
      · rw [eq_of_beq hcc] at hs
        exact absurd hs (by decide)
    have h2 : (c == '+') = false := by
      cases hcc : c == '+'
      · rfl
      · rw [eq_of_beq hcc] at hs
        exact absurd hs (by decide)
    rw [h1, h2]
    simp
  · rw [if_neg hs]
    by_cases hsp : c == ' '
    · rw [if_pos hsp]
      show formDecodeChars ( '+' :: rest) = _
      rw [formDecodeChars_cons]
      rw [eq_of_beq hsp]
      rfl
    · rw [if_neg hsp]
      show formDecodeChars ( '%' :: hexDigitChar (c.toNat / 16 % 16) ::
        hexDigitChar (c.toNat % 16) :: rest) = _
      rw [formDecodeChars_cons]
      show (hexVal (hexDigitChar (c.toNat / 16 % 16))).bind (fun hv =>
          (hexVal (hexDigitChar (c.toNat % 16))).bind fun lv =>
            (formDecodeChars rest).map fun r => Char.ofNat (16 * hv + lv) :: r) = _
      rw [hexVal_hexDigitChar (c.toNat / 16 % 16) (by omega),
        hexVal_hexDigitChar (c.toNat % 16) (by omega)]
      show (formDecodeChars rest).map
        (fun r => Char.ofNat (16 * (c.toNat / 16 % 16) + c.toNat % 16) :: r) = _
      rw [show 16 * (c.toNat / 16 % 16) + c.toNat % 16 = c.toNat by omega]
      rw [Char.ofNat_toNat]

theorem formDecode_encodeChars :
    ∀ cs : List Char, (∀ c ∈ cs, c.toNat < 128) →
      formDecodeChars (formEncodeChars cs) = some cs
  | [], _ => rfl
  | c :: tl, h => by
    show formDecodeChars (formEncodeChar c ++ formEncodeChars tl) = _
    rw [formDecode_encodeChar c _ (h c (List.mem_cons_self c tl))]
    rw [formDecode_encodeChars tl (fun x hx => h x (List.mem_cons_of_mem c hx))]
    rfl

theorem splitOnChar_cons (sep c : Char) (rest : List Char) :
    splitOnChar sep (c :: rest) =
      (if c == sep then [] :: splitOnChar sep rest
      else match splitOnChar sep rest with
        | g :: gs => (c :: g) :: gs
        | [] => [[c]]) := by
  conv_lhs => unfold splitOnChar

theorem splitOnChar_not_mem (sep : Char) :
    ∀ cs : List Char, sep ∉ cs → splitOnChar sep cs = [cs]
  | [], _ => rfl
  | c :: rest, h => by
    have hne : c ≠ sep := fun he => h (he ▸ List.mem_cons_self c rest)
    rw [splitOnChar_cons, if_neg (by simpa using hne),
      splitOnChar_not_mem sep rest (fun hm => h (List.mem_cons_of_mem c hm))]

theorem splitOnChar_append (sep : Char) :
    ∀ (xs ys : List Char), sep ∉ xs →
      splitOnChar sep (xs ++ sep :: ys) = xs :: splitOnChar sep ys
  | [], ys, _ => by
    show splitOnChar sep (sep :: ys) = [] :: splitOnChar sep ys
    rw [splitOnChar_cons, if_pos (by simp)]
  | x :: xs, ys, h => by
    have hne : x ≠ sep := fun he => h (he ▸ List.mem_cons_self x xs)
    show splitOnChar sep (x :: (xs ++ sep :: ys)) = (x :: xs) :: splitOnChar sep ys
    rw [splitOnChar_cons, if_neg (by simpa using hne),
      splitOnChar_append sep xs ys (fun hm => h (List.mem_cons_of_mem x hm))]

theorem splitPair_encode (k v : String)
    (hk : ∀ c ∈ k.data, c.toNat < 128) (hv : ∀ c ∈ v.data, c.toNat < 128) :
    splitPair (formEncodeStr k ++ '=' :: formEncodeStr v) = some (k, v) := by
  unfold splitPair
  rw [splitOnChar_append '=' (formEncodeStr k) (formEncodeStr v)
    (eqc_not_mem_encodeChars k.data)]
  rw [splitOnChar_not_mem '=' (formEncodeStr v) (eqc_not_mem_encodeChars v.data)]
  show (formDecodeChars (formEncodeChars k.data)).bind (fun kc =>
      (formDecodeChars (formEncodeChars v.data)).map fun vc =>
        (String.mk kc, String.mk vc)) = some (k, v)
  rw [formDecode_encodeChars k.data hk, formDecode_encodeChars v.data hv]
  rfl

theorem amp_not_mem_pair (k v : String) :
    '&' ∉ formEncodeStr k ++ '=' :: formEncodeStr v := by
  intro hm
  rcases List.mem_append.mp hm with hm | hm
  · exact amp_not_mem_encodeChars k.data hm
  · rcases List.mem_cons.mp hm with hm | hm
    · exact absurd hm (by decide)
    · exact amp_not_mem_encodeChars v.data hm

theorem decodeQuery_encodePairs :
    ∀ (p : String × String) (pairs : List (String × String)),
      (∀ kv ∈ p :: pairs,
        (∀ c ∈ kv.1.data, c.toNat < 128) ∧ (∀ c ∈ kv.2.data, c.toNat < 128)) →
      decodeQueryChars (encodeFormPairs (p :: pairs)) = some (p :: pairs)
  | p, [], h => by
    unfold decodeQueryChars
    show (splitOnChar '&' (formEncodeStr p.1 ++ '=' :: formEncodeStr p.2)).mapM
      splitPair = _
    rw [splitOnChar_not_mem '&' _ (amp_not_mem_pair p.1 p.2)]
    simp only [List.mapM_cons, List.mapM_nil]
    rw [splitPair_encode p.1 p.2 (h p (List.mem_cons_self p [])).1
      (h p (List.mem_cons_self p [])).2]
    rfl
  | p, q :: rest, h => by
    have hlist : encodeFormPairs (p :: q :: rest) =
        (formEncodeStr p.1 ++ '=' :: formEncodeStr p.2) ++
          '&' :: encodeFormPairs (q :: rest) := by
      conv_lhs => unfold encodeFormPairs
    unfold decodeQueryChars
    rw [hlist]
    rw [splitOnChar_append '&' (formEncodeStr p.1 ++ '=' :: formEncodeStr p.2)
      (encodeFormPairs (q :: rest)) (amp_not_mem_pair p.1 p.2)]
    simp only [List.mapM_cons]
    rw [splitPair_encode p.1 p.2 (h p (List.mem_cons_self p (q :: rest))).1
      (h p (List.mem_cons_self p (q :: rest))).2]
    have ih : (splitOnChar '&' (encodeFormPairs (q :: rest))).mapM splitPair =
        some (q :: rest) :=
      decodeQuery_encodePairs q rest (fun kv hkv => h kv (List.mem_cons_of_mem p hkv))
    rw [ih]
    rfl

/-! ## ASCII bounds on the serializer output (C5) -/

theorem all_asciiChar_mem {l : List Char} (hl : l.all asciiChar = true) :
    ∀ x ∈ l, x.toNat < 128 := by
  intro x hx
  have h2 := List.all_eq_true.mp hl x hx
  simpa [asciiChar] using h2

theorem escapeChar_ascii (c : Char) (hc : c.toNat < 128) :
    ∀ x ∈ escapeChar c, x.toNat < 128 := by
  intro x hx
  unfold escapeChar at hx
  split at hx
  · simp only [List.mem_cons, List.not_mem_nil, or_false] at hx
    rcases hx with h | h
    · rw [h]
      decide
    · rw [h]
      decide
  · split at hx
    · simp only [List.mem_cons, List.not_mem_nil, or_false] at hx
      rcases hx with h | h
      · rw [h]
        decide
      · rw [h]
        decide
    · rw [List.mem_singleton] at hx
      rw [hx]
      exact hc

theorem escapeChars_ascii :
    ∀ cs : List Char, (∀ c ∈ cs, c.toNat < 128) →
      ∀ x ∈ escapeChars cs, x.toNat < 128
  | [], _, x, hx => absurd hx (List.not_mem_nil x)
  | c :: tl, h, x, hx => by
    have hx2 : x ∈ escapeChar c ++ escapeChars tl := hx
    rcases List.mem_append.mp hx2 with hm | hm
    · exact escapeChar_ascii c (h c (List.mem_cons_self c tl)) x hm
    · exact escapeChars_ascii tl (fun y hy => h y (List.mem_cons_of_mem c hy)) x hm

theorem intChars_ascii (i : Int) : ∀ x ∈ intChars i, x.toNat < 128 := by
  intro x hx
  unfold intChars at hx
  by_cases h : i < 0
  · rw [if_pos h] at hx
    rcases List.mem_cons.mp hx with h2 | h2
    · rw [h2]
      decide
    · exact natCharsAux_ascii _ _ (Nat.lt_succ_self _) x h2
  · rw [if_neg h] at hx
    exact natCharsAux_ascii _ _ (Nat.lt_succ_self _) x hx

mutual

theorem strJson_ascii :
    ∀ j : Json, asciiJson j = true → ∀ x ∈ strJson j, x.toNat < 128
  | .null, _, x, hx => all_asciiChar_mem (by decide) x hx
  | .bool true, _, x, hx => all_asciiChar_mem (by decide) x hx
  | .bool false, _, x, hx => all_asciiChar_mem (by decide) x hx
  | .num n, _, x, hx => intChars_ascii n x hx
  | .str s, h, x, hx => by
    have hs : asciiStr s = true := h
    have hx2 : x ∈ ( '"' : Char) :: (escapeChars s.data ++ [ '"' ]) := hx
    rcases List.mem_cons.mp hx2 with hm | hm
    · rw [hm]
      decide
    · rcases List.mem_append.mp hm with h2 | h2
      · exact escapeChars_ascii s.data (all_asciiChar_mem hs) x h2
      · rw [List.mem_singleton.mp h2]
        decide
  | .arr es, h, x, hx => by
    have he : asciiList es = true := h
    have hx2 : x ∈ ( '[' : Char) :: (strList es ++ [ ']' ]) := hx
    rcases List.mem_cons.mp hx2 with hm | hm
    · rw [hm]
      decide
    · rcases List.mem_append.mp hm with h2 | h2
      · exact strList_ascii es he x h2
      · rw [List.mem_singleton.mp h2]
        decide
  | .obj fs, h, x, hx => by
    have hf : asciiFields fs = true := h
    have hx2 : x ∈ ( '{' : Char) :: (strFields fs ++ [ '}' ]) := hx
    rcases List.mem_cons.mp hx2 with hm | hm
    · rw [hm]
      decide
    · rcases List.mem_append.mp hm with h2 | h2
      · exact strFields_ascii fs hf x h2
      · rw [List.mem_singleton.mp h2]
        decide

theorem strList_ascii :
    ∀ es : JsonList, asciiList es = true → ∀ x ∈ strList es, x.toNat < 128
  | .nil, _, x, hx => absurd hx (List.not_mem_nil x)
  | .cons j .nil, h, x, hx => by
    have h2 : (asciiJson j && asciiList JsonList.nil) = true := h
    rw [Bool.and_eq_true] at h2
    exact strJson_ascii j h2.1 x hx
  | .cons j (.cons y tl), h, x, hx => by
    have h2 : (asciiJson j && asciiList (.cons y tl)) = true := h
    rw [Bool.and_eq_true] at h2
    have hx2 : x ∈ strJson j ++ ',' :: strList (.cons y tl) := hx
    rcases List.mem_append.mp hx2 with hm | hm
    · exact strJson_ascii j h2.1 x hm
    · rcases List.mem_cons.mp hm with hm | hm
      · rw [hm]
        decide
      · exact strList_ascii (.cons y tl) h2.2 x hm

theorem strFields_ascii :
    ∀ fs : JsonFields, asciiFields fs = true → ∀ x ∈ strFields fs, x.toNat < 128
  | .nil, _, x, hx => absurd hx (List.not_mem_nil x)
  | .cons k v .nil, h, x, hx => by
    have h2 : ((asciiStr k && asciiJson v) && asciiFields JsonFields.nil) = true := h
    rw [Bool.and_eq_true, Bool.and_eq_true] at h2
    have hx2 : x ∈ ( '"' : Char) :: (escapeChars k.data ++ '"' :: ':' :: strJson v) := hx
    rcases List.mem_cons.mp hx2 with hm | hm
    · rw [hm]
      decide
    · rcases List.mem_append.mp hm with hm | hm
      · exact escapeChars_ascii k.data (all_asciiChar_mem h2.1.1) x hm
      · rcases List.mem_cons.mp hm with hm | hm
        · rw [hm]
          decide
        · rcases List.mem_cons.mp hm with hm | hm
          · rw [hm]
            decide
          · exact strJson_ascii v h2.1.2 x hm
  | .cons k v (.cons k2 v2 tl), h, x, hx => by
    have h2 : ((asciiStr k && asciiJson v) && asciiFields (.cons k2 v2 tl)) = true := h
    rw [Bool.and_eq_true, Bool.and_eq_true] at h2
    simp only [strFields, List.cons_append, List.append_assoc, List.mem_cons,
      List.mem_append] at hx
    rcases hx with hm | hm | hm | hm | hm | hm | hm
    · rw [hm]
      decide
    · exact escapeChars_ascii k.data (all_asciiChar_mem h2.1.1) x hm
    · rw [hm]
      decide
    · rw [hm]
      decide
    · exact strJson_ascii v h2.1.2 x hm
    · rw [hm]
      decide
    · exact strFields_ascii (.cons k2 v2 tl) h2.2 x hm

end

theorem jsonStringify_ascii (j : Json) (h : asciiJson j = true) :
    ∀ x ∈ (jsonStringify j).data, x.toNat < 128 :=
  strJson_ascii j h

theorem natToString_ascii (n : Nat) : ∀ x ∈ (natToString n).data, x.toNat < 128 :=
  fun x hx => natCharsAux_ascii (n + 1) n (Nat.lt_succ_self n) x hx

theorem sortOrderStr_ascii (o : SortOrder) : asciiStr (sortOrderStr o) = true := by
  cases o
  · decide
  · decide

theorem asciiList_sorters :
    ∀ ss : List Sorter, (∀ s ∈ ss, asciiStr s.field = true) →
      asciiList (JsonList.ofList (ss.map sorterJson)) = true
  | [], _ => rfl
  | s :: tl, h => by
    show (asciiJson (sorterJson s) &&
      asciiList (JsonList.ofList (tl.map sorterJson))) = true
    rw [Bool.and_eq_true]
    constructor
    · show (asciiStr s.field && (asciiStr (sortOrderStr s.order) && true)) = true
      rw [h s (List.mem_cons_self s tl), sortOrderStr_ascii s.order]
      rfl
    · exact asciiList_sorters tl (fun y hy => h y (List.mem_cons_of_mem s hy))

theorem sortArrayJson_ascii (ss : List Sorter)
    (h : ∀ s ∈ ss, asciiStr s.field = true) :
    asciiJson (sortArrayJson ss) = true :=
  asciiList_sorters ss h

theorem asciiList_filters :
    ∀ fs : List FilterClause,
      (∀ f ∈ fs, asciiStr f.field = true ∧ asciiStr f.operator = true ∧
        asciiJson f.value = true) →
      asciiList (JsonList.ofList (fs.map filterJson)) = true
  | [], _ => rfl
  | f :: tl, h => by
    obtain ⟨h1, h2, h3⟩ := h f (List.mem_cons_self f tl)
    show (asciiJson (filterJson f) &&
      asciiList (JsonList.ofList (tl.map filterJson))) = true
    rw [Bool.and_eq_true]
    constructor
    · show ((asciiStr "field" && asciiStr f.field) &&
        ((asciiStr "operator" && asciiStr f.operator) &&
          ((asciiStr "value" && asciiJson f.value) && true))) = true
      rw [h1, h2, h3]
      decide
    · exact asciiList_filters tl (fun y hy => h y (List.mem_cons_of_mem f hy))

theorem filtersJson_ascii (fs : List FilterClause)
    (h : ∀ f ∈ fs, asciiStr f.field = true ∧ asciiStr f.operator = true ∧
      asciiJson f.value = true) :
    asciiJson (filtersJson fs) = true :=
  asciiList_filters fs h

theorem getListQueryPairs_eq (pag : Option PaginationParams) (ss : List Sorter)
    (fs : List FilterClause) (hss : ss ≠ []) (hfs : fs ≠ []) :
    getListQueryPairs (some ⟨pag, some ss, some fs⟩) =
      [("current", natToString ((pag.bind fun p => p.current).getD 1)),
       ("pageSize", natToString ((pag.bind fun p => p.pageSize).getD 10)),
       ("sort", jsonStringify (sortArrayJson ss)),
       ("filters", jsonStringify (filtersJson fs))] := by
  have h1 : 0 < ss.length := List.length_pos.mpr hss
  have h2 : 0 < fs.length := List.length_pos.mpr hfs
  unfold getListQueryPairs
  simp [h1, h2]

/-- C5: with non-empty sorter and filter sequences (over the ASCII
strings the form-encoding model covers), the encoded getList query
string carries a sort parameter equal to the serialized [field,
direction] pairs and a filters parameter equal to the serialized
clause objects, in the caller's left-to-right order; decoding the
query string reproduces the ordered parameter pairs exactly, and
parsing the serialized parameters reproduces the original sequences in
their original order; with absent or empty sequences the sort and
filters parameters are absent. -/
theorem getList_encoding_order_preserving
    (pag : Option PaginationParams) (ss : List Sorter) (fs : List FilterClause)
    (hss : ss ≠ []) (hfs : fs ≠ [])
    (hsa : ∀ s ∈ ss, asciiStr s.field = true)
    (hfa : ∀ f ∈ fs, asciiStr f.field = true ∧ asciiStr f.operator = true ∧
      asciiJson f.value = true) :
    decodeQueryString (getListQueryString (some ⟨pag, some ss, some fs⟩)) =
      some (getListQueryPairs (some ⟨pag, some ss, some fs⟩)) ∧
    lookupParam "sort" (getListQueryPairs (some ⟨pag, some ss, some fs⟩)) =
      some (jsonStringify (sortArrayJson ss)) ∧
    lookupParam "filters" (getListQueryPairs (some ⟨pag, some ss, some fs⟩)) =
      some (jsonStringify (filtersJson fs)) ∧
    jsonParseString (jsonStringify (sortArrayJson ss)) =
      some (.arr (JsonList.ofList (ss.map sorterJson))) ∧
    jsonParseString (jsonStringify (filtersJson fs)) =
      some (.arr (JsonList.ofList (fs.map filterJson))) ∧
    (∀ pag2 : Option PaginationParams,
      lookupParam "sort" (getListQueryPairs (some ⟨pag2, none, none⟩)) = none ∧
      lookupParam "filters" (getListQueryPairs (some ⟨pag2, none, none⟩)) = none ∧
      lookupParam "sort" (getListQueryPairs (some ⟨pag2, some [], some []⟩)) = none ∧
      lookupParam "filters" (getListQueryPairs (some ⟨pag2, some [], some []⟩)) =
        none) := by
  have hpairs := getListQueryPairs_eq pag ss fs hss hfs
  refine ⟨?_, ?_, ?_, ?_, ?_, ?_⟩
  · show decodeQueryChars (encodeFormPairs
      (getListQueryPairs (some ⟨pag, some ss, some fs⟩))) =
      some (getListQueryPairs (some ⟨pag, some ss, some fs⟩))
    rw [hpairs]
    refine decodeQuery_encodePairs _ _ ?_
    intro kv hkv
    simp only [List.mem_cons, List.not_mem_nil, or_false] at hkv
    rcases hkv with h | h | h | h
    · rw [h]
      exact ⟨@all_asciiChar_mem ("current".data) (by decide), natToString_ascii _⟩
    · rw [h]
      exact ⟨@all_asciiChar_mem ("pageSize".data) (by decide), natToString_ascii _⟩
    · rw [h]
      exact ⟨@all_asciiChar_mem ("sort".data) (by decide),
        jsonStringify_ascii _ (sortArrayJson_ascii ss hsa)⟩
    · rw [h]
      exact ⟨@all_asciiChar_mem ("filters".data) (by decide),
        jsonStringify_ascii _ (filtersJson_ascii fs hfa)⟩
  · rw [hpairs]
    rfl
  · rw [hpairs]
    rfl
  · exact jsonParseString_stringify (sortArrayJson ss)
  · exact jsonParseString_stringify (filtersJson fs)
  · intro pag2
    exact ⟨rfl, rfl, rfl, rfl⟩

theorem getList_encoding_order_preserving_witness :
    ([⟨ "name", SortOrder.asc⟩, ⟨ "age", SortOrder.desc⟩] : List Sorter) ≠ [] ∧
    ([⟨ "name", "eq", Json.str "test"⟩] : List FilterClause) ≠ [] ∧
    decodeQueryString (getListQueryString (some ⟨none,
        some [⟨ "name", SortOrder.asc⟩, ⟨ "age", SortOrder.desc⟩],
        some [⟨ "name", "eq", Json.str "test"⟩]⟩)) =
      some (getListQueryPairs (some ⟨none,
        some [⟨ "name", SortOrder.asc⟩, ⟨ "age", SortOrder.desc⟩],
        some [⟨ "name", "eq", Json.str "test"⟩]⟩)) :=
  ⟨by decide, by decide, (getList_encoding_order_preserving none
    [⟨ "name", SortOrder.asc⟩, ⟨ "age", SortOrder.desc⟩]
    [⟨ "name", "eq", Json.str "test"⟩] (by decide) (by decide) (by decide)
    (by decide)).1⟩
